import Mathlib

/-!
Verification of the sia_webscraper repository (src/scraper.py, src/scraper2.py,
src/scraper3.py) against its natural-language specification.

Strings from the Python source are modelled as `List Char`.  Machine-level
Python behaviour (the builtin `int(s, 16)`, `chr`, integer xor, `str.strip`,
`str.title`, `re.split`, `re.sub` for the concrete patterns appearing in the
source) is modelled explicitly below; each model carries a comment naming the
Python construct it embeds.
-/

set_option maxRecDepth 4000

/-- ASCII whitespace, as recognised by Python `str.strip()` and `\s`
(the scraper data is ASCII; the unicode extras of Python are not modelled). -/
def isSpaceC (c : Char) : Bool :=
  c = ' ' || c = '\t' || c = '\n' || c = '\r' || c = '\x0b' || c = '\x0c'

/-- Python `str.strip()`: remove leading and trailing whitespace. -/
def pyStripBoth (l : List Char) : List Char :=
  ((l.dropWhile isSpaceC).reverse.dropWhile isSpaceC).reverse

/-- Value of one hexadecimal digit (`0`-`9`, `a`-`f`, `A`-`F`), as accepted by
Python `int(_, 16)`. -/
def hexVal (c : Char) : Option Nat :=
  if '0' ≤ c ∧ c ≤ '9' then some (c.toNat - 48)
  else if 'a' ≤ c ∧ c ≤ 'f' then some (c.toNat - 87)
  else if 'A' ≤ c ∧ c ≤ 'F' then some (c.toNat - 55)
  else none

def isHexB (c : Char) : Bool := (hexVal c).isSome

/-- Python `int(s, 16)` restricted to strings of length at most 2 — the only
lengths the decoders ever pass (`hex_str[:2]` and `hex_str[i:i+2]`).
Python tolerates surrounding whitespace and a sign before the digits, so a
two-character slice can also parse as `" d"`, `"d "`, `"+d"` or `"-d"`.
`none` models a raised `ValueError`. -/
def pyIntHex : List Char → Option Int
  | [] => none
  | [c] => (hexVal c).map Int.ofNat
  | [c₁, c₂] =>
    match hexVal c₁, hexVal c₂ with
    | some v₁, some v₂ => some (Int.ofNat (16 * v₁ + v₂))
    | some v₁, none => if isSpaceC c₂ then some (Int.ofNat v₁) else none
    | none, some v₂ =>
      if isSpaceC c₁ then some (Int.ofNat v₂)
      else if c₁ = '+' then some (Int.ofNat v₂)
      else if c₁ = '-' then some (-(Int.ofNat v₂))
      else none
    | none, none => none
  | _ => none

/-- Python integer xor (two's complement on unbounded integers). -/
def pyXor : Int → Int → Int
  | Int.ofNat m, Int.ofNat n => Int.ofNat (m ^^^ n)
  | Int.ofNat m, Int.negSucc n => Int.negSucc (m ^^^ n)
  | Int.negSucc m, Int.ofNat n => Int.negSucc (m ^^^ n)
  | Int.negSucc m, Int.negSucc n => Int.ofNat (m ^^^ n)

/-- Python `chr`: defined for code points `0 ≤ n < 0x110000`, otherwise a
`ValueError` (`none`).  (Python also allows surrogate code points, which
Lean `Char` cannot carry; no decoded scraper value reaches them.) -/
def pyChr (n : Int) : Option Char :=
  if 0 ≤ n ∧ n < 1114112 then some (Char.ofNat n.toNat) else none

/-- Loop body of `cf_decode` in src/scraper2.py (lines 30-33):
`for i in range(2, len(hex_str), 2): if i + 1 < len(hex_str): ...` —
an unpaired trailing character is skipped.  `none` models a raised
exception inside the loop. -/
def decTail2 (key : Int) : List Char → Option (List Char)
  | [] => some []
  | [_] => some []
  | c₁ :: c₂ :: rest =>
    match pyIntHex [c₁, c₂] with
    | none => none
    | some b =>
      match pyChr (pyXor b key) with
      | none => none
      | some ch => (decTail2 key rest).map (fun s => ch :: s)

/-- Body of `cf_decode` in src/scraper2.py before the `except` clause:
strip, return `""` on length `< 2`, parse the key, run the loop.
`none` models any raised exception. -/
def cf_decode2Raw (s : List Char) : Option (List Char) :=
  let t := pyStripBoth s
  if t.length < 2 then some []
  else
    match pyIntHex (t.take 2) with
    | none => none
    | some key => decTail2 key (t.drop 2)

/-- `cf_decode` of src/scraper2.py (lines 19-38): the `try/except` catches
every exception and returns the empty string. -/
def cf_decode2 (s : List Char) : List Char :=
  (cf_decode2Raw s).getD []

/-- Loop of `cf_decode` in src/scraper3.py (lines 20-23):
`for i in range(2, len(hex_str), 2)` with no pairing check, so a lone
trailing character is sliced as a one-character string and parsed as a
one-digit hex byte.  `none` models a raised exception. -/
def decTail3 (key : Int) : List Char → Option (List Char)
  | [] => some []
  | [c] =>
    match pyIntHex [c] with
    | none => none
    | some b =>
      match pyChr (pyXor b key) with
      | none => none
      | some ch => some [ch]
  | c₁ :: c₂ :: rest =>
    match pyIntHex [c₁, c₂] with
    | none => none
    | some b =>
      match pyChr (pyXor b key) with
      | none => none
      | some ch => (decTail3 key rest).map (fun s => ch :: s)

/-- `cf_decode` of src/scraper3.py (lines 17-23): no stripping, no length
guard, no exception handling.  `none` models a raised (propagating)
exception. -/
def cf_decode3 (s : List Char) : Option (List Char) :=
  match pyIntHex (s.take 2) with
  | none => none
  | some key => decTail3 key (s.drop 2)

/-- Lowercase hex digit for a value `< 16` (used by the spec-side encoder). -/
def toHexDigit (n : Nat) : Char :=
  if n < 10 then Char.ofNat (48 + n) else Char.ofNat (87 + n)

/-- Two lowercase hex digits of a byte. -/
def encByte (n : Nat) : List Char :=
  [toHexDigit (n / 16), toHexDigit (n % 16)]

/-- The spec's `encode(k, p)` (spec §8): hex-encode the key byte, then each
payload byte xored with the key. -/
def encode (k : Nat) (p : List Nat) : List Char :=
  encByte k ++ (p.map (fun b => encByte (b ^^^ k))).flatten

/-- The spec's `bytes_to_string(p)`: the string whose characters are the
bytes of `p`. -/
def bytesToStr (p : List Nat) : List Char :=
  p.map Char.ofNat

/-- ASCII letter (Python `str.title()` treats letters as cased characters;
the scraper data is ASCII). -/
def isAlphaC (c : Char) : Bool :=
  ('a' ≤ c ∧ c ≤ 'z') || ('A' ≤ c ∧ c ≤ 'Z')

def toLowerC (c : Char) : Char :=
  if 'A' ≤ c ∧ c ≤ 'Z' then Char.ofNat (c.toNat + 32) else c

def toUpperC (c : Char) : Char :=
  if 'a' ≤ c ∧ c ≤ 'z' then Char.ofNat (c.toNat - 32) else c

/-- Python `str.title()`: a letter is uppercased when the previous character
is not a letter, lowercased otherwise; other characters pass through. -/
def pyTitleGo (prevAlpha : Bool) : List Char → List Char
  | [] => []
  | c :: rest =>
    (if isAlphaC c then (if prevAlpha then toLowerC c else toUpperC c) else c)
      :: pyTitleGo (isAlphaC c) rest

def pyTitle (l : List Char) : List Char := pyTitleGo false l

/-- Separator of `re.split(r'[,\s]+', ...)` in `parse_name`. -/
def isSepC (c : Char) : Bool := c = ',' || isSpaceC c

/-- `re.split(r'[,\s]+', s)`: split on maximal runs of commas/whitespace;
a leading or trailing run contributes an empty piece, exactly as in Python. -/
def reSplit : List Char → List (List Char)
  | [] => [[]]
  | c :: rest =>
    let r := reSplit rest
    if isSepC c then
      match rest with
      | d :: _ => if isSepC d then r else [] :: r
      | [] => [] :: r
    else
      match r with
      | p :: ps => (c :: p) :: ps
      | [] => [[c]]

/-- `parse_name` of src/scraper2.py (lines 68-89). -/
def parse_name (s : List Char) : List Char × List Char :=
  if s = [] then ([], [])
  else
    let t := pyTitle (pyStripBoth s)
    let parts := (reSplit t).filterMap
      (fun p => let q := pyStripBoth p; if q = [] then none else some q)
    match parts with
    | [] => ([], [])
    | [x] => (x, [])
    | x :: y :: rest => (x, ((y :: rest).getLast?).getD [])

/-- Case-insensitive match of a lowercase literal at the head of a string;
returns the remainder on success. -/
def matchCI : List Char → List Char → Option (List Char)
  | [], s => some s
  | _ :: _, [] => none
  | l :: ls, c :: cs => if toLowerC c = l then matchCI ls cs else none

/-- One attempted match of `re.sub`'s pattern `\s*PTE\s*LTD\s*`
(case-insensitive) at the head of the string, returning the remainder
after the match.  Each greedy `\s*` is a maximal whitespace run; since the
following literal starts with a non-whitespace letter, no backtracking can
succeed, so maximal munch is exact. -/
def matchPteLtd (s : List Char) : Option (List Char) :=
  match matchCI ['p','t','e'] (s.dropWhile isSpaceC) with
  | none => none
  | some s₂ =>
    match matchCI ['l','t','d'] (s₂.dropWhile isSpaceC) with
    | none => none
    | some s₃ => some (s₃.dropWhile isSpaceC)

/-- `re.sub(r'\s*PTE\s*LTD\s*', '', company, flags=re.IGNORECASE)`:
scan left to right, replacing each leftmost non-overlapping match by
nothing.  Fuel-driven so that the kernel can evaluate it; the fuel is the
string length, which is always sufficient. -/
def pteLtdSubGo : Nat → List Char → List Char
  | 0, _ => []
  | _ + 1, [] => []
  | f + 1, c :: rest =>
    match matchPteLtd (c :: rest) with
    | some rem => pteLtdSubGo f rem
    | none => c :: pteLtdSubGo f rest

def pteLtdSub (s : List Char) : List Char := pteLtdSubGo s.length s

/-- `clean_company_name` of src/scraper2.py (lines 57-66). -/
def clean_company_name (s : List Char) : List Char :=
  if s = [] then []
  else pyTitle (pyStripBoth (pteLtdSub s))

/-- Substring test (Python `in` on strings). -/
def hasSub (s pat : List Char) : Bool :=
  (List.range (s.length + 1)).any (fun i => pat.isPrefixOf (s.drop i))

/-- `href.split("#")[-1]`: the part after the last `#` (the whole string
when no `#` occurs). -/
def afterLastHash (s : List Char) : List Char :=
  (s.reverse.takeWhile (fun c => c ≠ '#')).reverse

/-- Python `str.replace(pat, "")` for a non-empty literal `pat`:
remove every non-overlapping occurrence, scanning left to right.
Fuel-driven (fuel = string length, always sufficient). -/
def removeAllGo (pat : List Char) : Nat → List Char → List Char
  | 0, _ => []
  | _ + 1, [] => []
  | f + 1, c :: rest =>
    if pat.isPrefixOf (c :: rest) then removeAllGo pat f ((c :: rest).drop pat.length)
    else c :: removeAllGo pat f rest

def pyReplaceDel (s pat : List Char) : List Char := removeAllGo pat s.length s

/-- One HTML character reference after a `&`, as resolved by
`html.unescape`: the named references the scraper can meet plus numeric
(decimal and hexadecimal) references with a closing `;`. -/
def entityMatch (s : List Char) : Option (Char × List Char) :=
  if ("amp;".toList).isPrefixOf s then some ('&', s.drop 4)
  else if ("lt;".toList).isPrefixOf s then some ('<', s.drop 3)
  else if ("gt;".toList).isPrefixOf s then some ('>', s.drop 3)
  else if ("quot;".toList).isPrefixOf s then some ('"', s.drop 5)
  else if ("nbsp;".toList).isPrefixOf s then some ('\xa0', s.drop 5)
  else
    match s with
    | '#' :: 'x' :: rest =>
      let ds := rest.takeWhile isHexB
      if ds.isEmpty then none
      else
        match rest.drop ds.length with
        | ';' :: rem =>
          some (Char.ofNat (ds.foldl (fun a c => 16 * a + ((hexVal c).getD 0)) 0), rem)
        | _ => none
    | '#' :: rest =>
      let ds := rest.takeWhile (fun c => '0' ≤ c ∧ c ≤ '9')
      if ds.isEmpty then none
      else
        match rest.drop ds.length with
        | ';' :: rem =>
          some (Char.ofNat (ds.foldl (fun a c => 10 * a + (c.toNat - 48)) 0), rem)
        | _ => none
    | _ => none

/-- `html.unescape` (`decode_html_entities` of src/scraper2.py, lines
40-42), fuel-driven. -/
def pyUnescapeGo : Nat → List Char → List Char
  | 0, _ => []
  | _ + 1, [] => []
  | f + 1, c :: rest =>
    if c = '&' then
      match entityMatch rest with
      | some (ch, rem) => ch :: pyUnescapeGo f rem
      | none => '&' :: pyUnescapeGo f rest
    else c :: pyUnescapeGo f rest

def pyUnescape (s : List Char) : List Char := pyUnescapeGo s.length s

/-- Word character of the regex `\b` boundary (`[A-Za-z0-9_]`). -/
def isWordC (c : Char) : Bool :=
  isAlphaC c || ('0' ≤ c ∧ c ≤ '9') || c = '_'

/-- Character class `[A-Za-z0-9._%+-]` (local part of the email regex). -/
def isLpartC (c : Char) : Bool :=
  isAlphaC c || ('0' ≤ c ∧ c ≤ '9') || c = '.' || c = '_' || c = '%' || c = '+' || c = '-'

/-- Character class `[A-Za-z0-9.-]` (domain part). -/
def isMpartC (c : Char) : Bool :=
  isAlphaC c || ('0' ≤ c ∧ c ≤ '9') || c = '.' || c = '-'

/-- Character class `[A-Z|a-z]` of the regex — note it literally contains
`|` inside the class. -/
def isTpartC (c : Char) : Bool := isAlphaC c || c = '|'

def wordOpt : Option Char → Bool
  | none => false
  | some c => isWordC c

/-- Backtracking match of the regex tail `[A-Za-z0-9.-]+\.[A-Z|a-z]{2,}\b`
against the characters after `@`: the greedy `+` run is shortened until a
literal `.` follows, then the greedy `{2,}` run is shortened until the
word boundary holds — the order the Python engine explores. -/
def emailTailMatch (s₂ : List Char) : Option (List Char) :=
  let m := s₂.takeWhile isMpartC
  (List.range m.length).reverse.findSome? (fun j =>
    if j = 0 then none
    else if m.getD j ' ' ≠ '.' then none
    else
      let after := s₂.drop (j + 1)
      let t := after.takeWhile isTpartC
      (List.range (t.length + 1)).reverse.findSome? (fun tl =>
        if tl < 2 then none
        else if isWordC (t.getD (tl - 1) ' ') == wordOpt (after.drop tl).head? then none
        else some (s₂.take (j + 1) ++ t.take tl)))

/-- Match of the full email regex
`\b[A-Za-z0-9._%+-]+@[A-Za-z0-9.-]+\.[A-Z|a-z]{2,}\b` at the current
position; `prev` is the preceding character, for the leading `\b`. -/
def matchEmailAt (prev : Option Char) (s : List Char) : Option (List Char) :=
  let l := s.takeWhile isLpartC
  if l.isEmpty then none
  else if isWordC (l.getD 0 ' ') == wordOpt prev then none
  else
    match s.drop l.length with
    | '@' :: s₂ => (emailTailMatch s₂).map (fun tail => l ++ '@' :: tail)
    | _ => none

/-- `re.search` for the email pattern: leftmost match. -/
def searchEmailGo (prev : Option Char) : List Char → Option (List Char)
  | [] => none
  | c :: rest =>
    match matchEmailAt prev (c :: rest) with
    | some m => some m
    | none => searchEmailGo (some c) rest

/-- `extract_email_from_text` of src/scraper2.py (lines 44-55). -/
def extract_email_from_text (t : List Char) : List Char :=
  match searchEmailGo none (pyUnescape t) with
  | some m => m
  | none => []

/-- One element of a card's parsed markup, carrying the queries the
scraper performs on it (tag name, class list, `href` and `data-cfemail`
attributes, `get_text(strip=True)`). -/
structure Elem where
  tag : String
  classes : List String
  href : Option (List Char)
  dataCfemail : Option (List Char)
  text : List Char
deriving DecidableEq

/-- One contact card: its descendant elements in document order plus the
raw `card.get_text()` value. -/
structure Card where
  elems : List Elem
  fullText : List Char
deriving DecidableEq

/-- One fetched page, as the extractor sees it: the CSS-select query
interface of the parsed soup plus the raw response text used by the
last-resort scan. -/
structure Page where
  select : String → List Card
  rawText : List Char

def selOneTagClass (c : Card) (tag cls : String) : Option Elem :=
  c.elems.find? (fun e => e.tag == tag && e.classes.contains cls)

def selOneTag (c : Card) (tag : String) : Option Elem :=
  c.elems.find? (fun e => e.tag == tag)

def selOneClass (c : Card) (cls : String) : Option Elem :=
  c.elems.find? (fun e => e.classes.contains cls)

/-- `card.select_one("a[href^='mailto:']")`. -/
def selMailtoOne (c : Card) : Option Elem :=
  c.elems.find? (fun e => e.tag == "a" &&
    (match e.href with
     | some h => ("mailto:".toList).isPrefixOf h
     | none => false))

/-- `card.select("a[href*='email-protection']")`. -/
def selProtection (c : Card) : List Elem :=
  c.elems.filter (fun e => e.tag == "a" &&
    (match e.href with
     | some h => hasSub h ("email-protection".toList)
     | none => false))

/-- `card.select("a")`. -/
def selAllAnchors (c : Card) : List Elem :=
  c.elems.filter (fun e => e.tag == "a")

/-- `encoded = card.select_one("a.__cf_email__")` combined with
`encoded and encoded.has_attr("data-cfemail")`. -/
def cfAnchorAttr (c : Card) : Option (List Char) :=
  match selOneTagClass c "a" "__cf_email__" with
  | some e => e.dataCfemail
  | none => none

/-- `cf_span = card.select_one("span.__cf_email__")` combined with the
`has_attr` check (Method 4 of the fallback path). -/
def cfSpanAttr (c : Card) : Option (List Char) :=
  match selOneTagClass c "span" "__cf_email__" with
  | some e => e.dataCfemail
  | none => none

/-- Protection-link loop of the primary path (src/scraper2.py lines
127-147): per link first the `#`-fragment decode, then the `@`-bearing
link text; `break` on the first success. -/
def protLoopPrimary : List Elem → List Char
  | [] => []
  | e :: rest =>
    let href := e.href.getD []
    let r₁ : List Char :=
      if href.contains '#' then
        let d := cf_decode2 (afterLastHash href)
        if !d.isEmpty && d.contains '@' then d else []
      else []
    if !r₁.isEmpty then r₁
    else
      let r₂ := if e.text.contains '@' then extract_email_from_text e.text else []
      if !r₂.isEmpty then r₂ else protLoopPrimary rest

/-- Protection-link loop of the fallback path, Method 3 (src/scraper2.py
lines 228-238): only the `#`-fragment decode. -/
def protLoopHrefOnly : List Elem → List Char
  | [] => []
  | e :: rest =>
    let href := e.href.getD []
    let r₁ : List Char :=
      if href.contains '#' then
        let d := cf_decode2 (afterLastHash href)
        if !d.isEmpty && d.contains '@' then d else []
      else []
    if !r₁.isEmpty then r₁ else protLoopHrefOnly rest

/-- Final all-links loop of the primary path (src/scraper2.py lines
157-167): `break` as soon as some href contains `mailto:`, even if the
stripped value is empty. -/
def mailtoScan : List Elem → List Char
  | [] => []
  | e :: rest =>
    let href := e.href.getD []
    if hasSub href ("mailto:".toList) then pyReplaceDel href ("mailto:".toList)
    else mailtoScan rest

/-- Method 6 of the fallback path (src/scraper2.py lines 255-268): scan
all links for `@`-bearing link text; continue when the extraction comes
back empty. -/
def scanLinkText : List Elem → List Char
  | [] => []
  | e :: rest =>
    if e.text.contains '@' then
      let d := extract_email_from_text e.text
      if d.isEmpty then scanLinkText rest else d
    else scanLinkText rest

/-- Method 5 of the fallback path / card-text step of the primary path:
`if "@" in card_text:` — regex extraction over the card text. -/
def textStrategy (c : Card) : List Char :=
  if c.fullText.contains '@' then extract_email_from_text c.fullText else []

/-- Email extraction of the primary (`testimonial-cite`) path,
src/scraper2.py lines 119-167.  An existing `a.__cf_email__` element with
the attribute commits the result unconditionally. -/
def emailPrimary (c : Card) : List Char :=
  match cfAnchorAttr c with
  | some v => cf_decode2 v
  | none =>
    let e₁ := protLoopPrimary (selProtection c)
    let e₂ := if e₁.isEmpty then textStrategy c else e₁
    if e₂.isEmpty then mailtoScan (selAllAnchors c) else e₂

/-- Email extraction of the fallback-selector path, src/scraper2.py lines
211-268 (Methods 1-6). -/
def emailFallback (c : Card) : List Char :=
  let e₁ :=
    match cfAnchorAttr c with
    | some v => cf_decode2 v
    | none => []
  let e₂ :=
    if e₁.isEmpty then
      match selMailtoOne c with
      | some e => pyReplaceDel (e.href.getD []) ("mailto:".toList)
      | none => []
    else e₁
  let e₃ := if e₂.isEmpty then protLoopHrefOnly (selProtection c) else e₂
  let e₄ :=
    if e₃.isEmpty then
      match cfSpanAttr c with
      | some v => cf_decode2 v
      | none => []
    else e₃
  let e₅ := if e₄.isEmpty then textStrategy c else e₄
  if e₅.isEmpty then scanLinkText (selAllAnchors c) else e₅

/-- The five-column record of src/scraper2.py:
`(first_name, last_name, full_name, cleaned_company, email)`. -/
structure Rec5 where
  fn : List Char
  ln : List Char
  full : List Char
  comp : List Char
  email : List Char
deriving DecidableEq

/-- `name_txt.strip().title() if name_txt else ""` (src/scraper2.py lines
171 and 275). -/
def fullNameOf (nameTxt : List Char) : List Char :=
  if nameTxt = [] then [] else pyTitle (pyStripBoth nameTxt)

/-- Per-card record construction of the primary path (src/scraper2.py
lines 110-174). -/
def recordPrimary (c : Card) : Rec5 :=
  let nameTxt :=
    match selOneTagClass c "h2" "testimonial-entry-title" with
    | some e => e.text
    | none => []
  let companyTxt :=
    match selOneTagClass c "p" "search-specialist-grey-txt" with
    | some e => e.text
    | none => []
  let email := emailPrimary c
  let p := parse_name nameTxt
  ⟨p.1, p.2, fullNameOf nameTxt, clean_company_name companyTxt, email⟩

/-- Per-card record construction of the fallback-selector path
(src/scraper2.py lines 194-278), with its ordered name and company
element candidates. -/
def recordFallback (c : Card) : Rec5 :=
  let nameElem :=
    selOneTag c "h2" <|> selOneTag c "h3" <|> selOneTag c "h4" <|>
      selOneTag c "h5" <|> selOneClass c "name" <|> selOneClass c "title"
  let companyElem :=
    selOneTagClass c "p" "search-specialist-grey-txt" <|>
      selOneTagClass c "p" "sub-title-1" <|>
      selOneTagClass c "p" "subtitle" <|>
      selOneClass c "company" <|> selOneClass c "organisation"
  let email := emailFallback c
  let nameTxt := match nameElem with | some e => e.text | none => []
  let companyTxt := match companyElem with | some e => e.text | none => []
  let p := parse_name nameTxt
  ⟨p.1, p.2, fullNameOf nameTxt, clean_company_name companyTxt, email⟩

/-- The ordered fallback selector list of src/scraper2.py (lines 180-185). -/
def alternative_selectors : List String :=
  ["div.search-result-item", "div.search-specialist-result-item",
   "div[class*='result']", "div[class*='specialist']"]

/-- The fallback-selector loop (src/scraper2.py lines 188-192): first
selector with a non-empty result wins, `break` afterwards. -/
def tryAlternatives (pg : Page) : List String → Option (List Card)
  | [] => none
  | sel :: rest =>
    let cards := pg.select sel
    if cards.isEmpty then tryAlternatives pg rest else some cards

/-- Step-1 card location of src/scraper2.py: the primary
`div.testimonial-cite` query (line 106), then the ordered fallback list. -/
def locateCards (pg : Page) : List Card :=
  let cards := pg.select ("div.testimonial-cite")
  if cards.isEmpty then (tryAlternatives pg alternative_selectors).getD []
  else cards

/-- The literal of `re.findall(r'/cdn-cgi/l/email-protection#([a-fA-F0-9]+)', ...)`. -/
def protPat : List Char := "/cdn-cgi/l/email-protection#".toList

/-- `re.findall(r'/cdn-cgi/l/email-protection#([a-fA-F0-9]+)', raw)`:
left-to-right, non-overlapping, greedy hex runs.  Fuel-driven. -/
def findCodesGo : Nat → List Char → List (List Char)
  | 0, _ => []
  | _ + 1, [] => []
  | f + 1, c :: rest =>
    if protPat.isPrefixOf (c :: rest) then
      let s₂ := (c :: rest).drop protPat.length
      let code := s₂.takeWhile isHexB
      if code.isEmpty then findCodesGo f rest
      else code :: findCodesGo f (s₂.drop code.length)
    else findCodesGo f rest

def findCodes (s : List Char) : List (List Char) := findCodesGo s.length s

/-- The sentinel record of the last-resort scan (src/scraper2.py lines
298-301): placeholder name and company around a decoded email. -/
def sentinelFor (d : List Char) : Rec5 :=
  ⟨(parse_name ("Name not found".toList)).1,
   (parse_name ("Name not found".toList)).2,
   "Name Not Found".toList,
   clean_company_name ("Company not found".toList), d⟩

/-- Last-resort raw-markup scan (src/scraper2.py lines 285-301): one
record per found code whose decode is non-empty. -/
def rawScanRecords (raw : List Char) : List Rec5 :=
  (findCodes raw).filterMap (fun code =>
    let d := cf_decode2 code
    if d = [] then none else some (sentinelFor d))

/-- `scrape_page` of src/scraper2.py (lines 91-301), as a function of the
parsed page: primary cards, else first non-empty fallback selector, else
the raw scan. -/
def scrape_page2 (pg : Page) : List Rec5 :=
  let cards := pg.select ("div.testimonial-cite")
  if cards.isEmpty then
    match tryAlternatives pg alternative_selectors with
    | some cs => cs.map recordFallback
    | none => rawScanRecords pg.rawText
  else cards.map recordPrimary

/-- Python `any(record)` over the five-string tuple (src/scraper2.py line
316): true iff at least one field is non-empty. -/
def anyField (r : Rec5) : Bool :=
  !r.fn.isEmpty || !r.ln.isEmpty || !r.full.isEmpty || !r.comp.isEmpty || !r.email.isEmpty

/-- Rows actually written by `main` of src/scraper2.py for one page
(lines 314-319): only records passing `any(record)`. -/
def writtenRows2 (pg : Page) : List Rec5 := (scrape_page2 pg).filter anyField

/-- The three-column record of src/scraper3.py. -/
structure Rec3 where
  name : List Char
  comp : List Char
  email : List Char
deriving DecidableEq

/-- Records yielded by `scrape_page` of src/scraper3.py (lines 33-47), in
order, stopping at the first card whose `cf_decode` raises — rows yielded
before the exception have already been written by the driver. -/
def cardsToRows3 : List Card → List Rec3
  | [] => []
  | c :: rest =>
    let nameTxt :=
      match selOneTagClass c "h2" "testimonial-entry-title" with
      | some e => e.text
      | none => []
    let companyTxt :=
      match selOneTagClass c "p" "search-specialist-grey-txt" with
      | some e => e.text
      | none => []
    match cfAnchorAttr c with
    | some v =>
      match cf_decode3 v with
      | none => []
      | some em => ⟨nameTxt, companyTxt, em⟩ :: cardsToRows3 rest
    | none => ⟨nameTxt, companyTxt, []⟩ :: cardsToRows3 rest

/-- Rows written by `main` of src/scraper3.py for one page (lines 59-61):
every yielded record, with no emptiness filter. -/
def writtenRows3 (pg : Page) : List Rec3 :=
  cardsToRows3 (pg.select ("div.testimonial-cite"))

/-- First strategy of an ordered list returning a non-empty string, else
empty — the spec's "ordered list of strategies, first success wins". -/
def firstHit (fs : List (Card → List Char)) (c : Card) : List Char :=
  match fs with
  | [] => []
  | f :: rest =>
    let r := f c
    if r = [] then firstHit rest c else r

/-- Amended spec form of the primary-path email extraction: the dedicated
obfuscated-email anchor commits unconditionally; otherwise the ordered
strategies protection-links, card-text regex, mailto-scan. -/
def emailPrimarySpec (c : Card) : List Char :=
  match cfAnchorAttr c with
  | some v => cf_decode2 v
  | none =>
    firstHit
      [fun c => protLoopPrimary (selProtection c),
       textStrategy,
       fun c => mailtoScan (selAllAnchors c)] c

/-- Amended spec form of the fallback-path email extraction: ordered
strategies cfemail-anchor, mailto link, protection links, cfemail-span,
card-text regex, anchor-text scan; first non-empty wins. -/
def emailFallbackSpec (c : Card) : List Char :=
  firstHit
    [fun c => match cfAnchorAttr c with | some v => cf_decode2 v | none => [],
     fun c => match selMailtoOne c with
              | some e => pyReplaceDel (e.href.getD []) ("mailto:".toList)
              | none => [],
     fun c => protLoopHrefOnly (selProtection c),
     fun c => match cfSpanAttr c with | some v => cf_decode2 v | none => [],
     textStrategy,
     fun c => scanLinkText (selAllAnchors c)] c

/-- Modelled from the claim C5 wording (not from the source): scan of all
anchors "for mailto or @-bearing link text", its strategy (5). -/
def claimAnchorScan : List Elem → List Char
  | [] => []
  | e :: rest =>
    let href := e.href.getD []
    if hasSub href ("mailto:".toList) then pyReplaceDel href ("mailto:".toList)
    else if e.text.contains '@' then
      let d := extract_email_from_text e.text
      if d.isEmpty then claimAnchorScan rest else d
    else claimAnchorScan rest

/-- Modelled from the claim C5 wording (not from the source): the claimed
strict priority order (1) obfuscated-email element, (2) mailto link,
(3) email-protection fragment, (4) text regex, (5) anchor scan. -/
def emailClaimOrder (c : Card) : List Char :=
  firstHit
    [fun c => match cfAnchorAttr c with | some v => cf_decode2 v | none => [],
     fun c => match selMailtoOne c with
              | some e => pyReplaceDel (e.href.getD []) ("mailto:".toList)
              | none => [],
     fun c => protLoopHrefOnly (selProtection c),
     textStrategy,
     fun c => claimAnchorScan (selAllAnchors c)] c


/-- Tokens of a name string after the code's strip-and-title normalisation:
the non-empty pieces of the `[,\\s]+` split. -/
def tokensOf (s : List Char) : List (List Char) :=
  (reSplit (pyTitle (pyStripBoth s))).filter (fun p => !p.isEmpty)

/-- A character that can appear in no successfully parsed one- or
two-character slice of `int(_, 16)`: not a hex digit, not whitespace, not a
sign. -/
def badCharB (c : Char) : Bool :=
  !(isHexB c || isSpaceC c || c == '+' || c == '-')

/-- The positions of the stripped input that `cf_decode` of src/scraper2.py
actually parses: everything except a lone trailing character. -/
def parsedSlots2 (s : List Char) : List Char :=
  (pyStripBoth s).take (2 * ((pyStripBoth s).length / 2))

/-- `pm` spells the lowercase literal `lit` up to ASCII case. -/
def spellsCI (pm lit : List Char) : Prop := pm.map toLowerC = lit

/-- Fixture: the spec §8 example card — name "jane TAN", company
"ABC Pte Ltd", one mailto anchor. -/
def exCard : Card :=
  ⟨[⟨"h2", ["testimonial-entry-title"], none, none, "jane TAN".toList⟩,
    ⟨"p", ["search-specialist-grey-txt"], none, none, "ABC Pte Ltd".toList⟩,
    ⟨"a", [], some ("mailto:jane@x.com".toList), none, "Email".toList⟩],
   "jane TAN ABC Pte Ltd Email".toList⟩

/-- Fixture: a page whose primary selector yields exactly the example card. -/
def examplePage : Page :=
  ⟨fun sel => if sel = "div.testimonial-cite" then [exCard] else [], []⟩

/-- Fixture: a card carrying both an email-protection anchor and a mailto
anchor (and no `__cf_email__` element). -/
def c5card : Card :=
  ⟨[⟨"a", [], some ("/cdn-cgi/l/email-protection#00614062".toList), none, "email me".toList⟩,
    ⟨"a", [], some ("mailto:z@w.co".toList), none, "contact".toList⟩],
   "email me contact".toList⟩

/-- Fixture: a page with no cards under any selector and one raw
email-protection fragment whose payload decodes to the empty string. -/
def pgRawEmptyDecode : Page :=
  ⟨fun _ => [], "x /cdn-cgi/l/email-protection#00 y".toList⟩

/-- Fixture: a page with no cards under any selector and one raw
email-protection fragment decoding to `a@b`. -/
def pgRawGood : Page :=
  ⟨fun _ => [], "<a href='/cdn-cgi/l/email-protection#00614062'>".toList⟩

/-- Fixture: a card with no name element, no company element and no email
source at all. -/
def emptyCard : Card := ⟨[], []⟩

/-- Fixture: a page whose primary selector yields exactly the empty card. -/
def pgEmptyCard : Page :=
  ⟨fun sel => if sel = "div.testimonial-cite" then [emptyCard] else [], []⟩

/-- Fixture: a card with only a company element. -/
def companyOnlyCard : Card :=
  ⟨[⟨"p", ["search-specialist-grey-txt"], none, none, "X".toList⟩], []⟩

/-- Fixture: a page whose primary selector yields exactly the company-only
card. -/
def pgCompanyOnly : Page :=
  ⟨fun sel => if sel = "div.testimonial-cite" then [companyOnlyCard] else [], []⟩

/-- Fixture: a page on which every selector comes back empty. -/
def pgNoCards : Page := ⟨fun _ => [], []⟩

theorem dropWhile_length_le (p : Char → Bool) (l : List Char) :
    (l.dropWhile p).length ≤ l.length := by
  induction l with
  | nil => simp
  | cons c rest ih =>
    by_cases h : p c
    · simp only [List.dropWhile_cons_of_pos h]
      exact Nat.le_trans ih (Nat.le_succ _)
    · simp [List.dropWhile_cons_of_neg h]

theorem pyStripBoth_length_le (l : List Char) : (pyStripBoth l).length ≤ l.length := by
  unfold pyStripBoth
  calc ((l.dropWhile isSpaceC).reverse.dropWhile isSpaceC).reverse.length
      = ((l.dropWhile isSpaceC).reverse.dropWhile isSpaceC).length := by simp
    _ ≤ (l.dropWhile isSpaceC).reverse.length := dropWhile_length_le _ _
    _ = (l.dropWhile isSpaceC).length := by simp
    _ ≤ l.length := dropWhile_length_le _ _

theorem noSpace_dropWhile {l : List Char} (h : ∀ c ∈ l, isSpaceC c = false) :
    l.dropWhile isSpaceC = l := by
  cases l with
  | nil => rfl
  | cons c rest =>
    have : ¬ (isSpaceC c = true) := by simp [h c (List.mem_cons_self c rest)]
    simp [List.dropWhile_cons_of_neg this]

theorem noSpace_strip {l : List Char} (h : ∀ c ∈ l, isSpaceC c = false) :
    pyStripBoth l = l := by
  unfold pyStripBoth
  rw [noSpace_dropWhile h, noSpace_dropWhile, List.reverse_reverse]
  intro c hc
  exact h c (List.mem_reverse.mp hc)

theorem hexVal_toHexDigit : ∀ x, x < 16 → hexVal (toHexDigit x) = some x := by decide

theorem toHexDigit_not_space : ∀ x, x < 16 → isSpaceC (toHexDigit x) = false := by decide

theorem pyIntHex_encByte {n : Nat} (h : n < 256) : pyIntHex (encByte n) = some (Int.ofNat n) := by
  have h₁ : n / 16 < 16 := by omega
  have h₂ : n % 16 < 16 := Nat.mod_lt _ (by omega)
  simp only [encByte, pyIntHex, hexVal_toHexDigit _ h₁, hexVal_toHexDigit _ h₂]
  have : 16 * (n / 16) + n % 16 = n := by omega
  rw [this]

theorem xor_lt_256 {a b : Nat} (ha : a < 256) (hb : b < 256) : a ^^^ b < 256 := by
  have h : Nat.bitwise bne a b < 2 ^ 8 := Nat.bitwise_lt (f := bne) ha hb
  have e : a ^^^ b = Nat.bitwise bne a b := rfl
  rw [e]
  exact h

theorem pyChr_ofNat {n : Nat} (h : n < 1114112) : pyChr (Int.ofNat n) = some (Char.ofNat n) := by
  have hc : (0 : Int) ≤ Int.ofNat n ∧ Int.ofNat n < 1114112 := by
    rw [Int.ofNat_eq_natCast]
    omega
  rw [pyChr, if_pos hc]
  simp

theorem encByte_not_space {n : Nat} (h : n < 256) : ∀ c ∈ encByte n, isSpaceC c = false := by
  intro c hc
  have h₁ : n / 16 < 16 := by omega
  have h₂ : n % 16 < 16 := Nat.mod_lt _ (by omega)
  simp only [encByte, List.mem_cons, List.mem_singleton] at hc
  rcases hc with h' | h' | h'
  · rw [h']; exact toHexDigit_not_space _ h₁
  · rw [h']; exact toHexDigit_not_space _ h₂
  · cases h'

theorem encode_not_space {k : Nat} {p : List Nat} (hk : k < 256) (hp : ∀ b ∈ p, b < 256) :
    ∀ c ∈ encode k p, isSpaceC c = false := by
  intro c hc
  simp only [encode, List.mem_append] at hc
  rcases hc with h' | h'
  · exact encByte_not_space hk c h'
  · rw [List.mem_flatten] at h'
    obtain ⟨l, hl, hcl⟩ := h'
    rw [List.mem_map] at hl
    obtain ⟨b, hb, rfl⟩ := hl
    exact encByte_not_space (xor_lt_256 (hp b hb) hk) c hcl

theorem decTail2_step {key b : Int} {c₁ c₂ : Char} {rest : List Char} {ch : Char}
    (h₁ : pyIntHex [c₁, c₂] = some b) (h₂ : pyChr (pyXor b key) = some ch) :
    decTail2 key (c₁ :: c₂ :: rest) = (decTail2 key rest).map (fun s => ch :: s) := by
  simp only [decTail2, h₁, h₂]

theorem decTail3_step {key b : Int} {c₁ c₂ : Char} {rest : List Char} {ch : Char}
    (h₁ : pyIntHex [c₁, c₂] = some b) (h₂ : pyChr (pyXor b key) = some ch) :
    decTail3 key (c₁ :: c₂ :: rest) = (decTail3 key rest).map (fun s => ch :: s) := by
  simp only [decTail3, h₁, h₂]

theorem decTail2_payload {k : Nat} (hk : k < 256) (p : List Nat) (hp : ∀ b ∈ p, b < 256)
    (rest : List Char) :
    decTail2 (Int.ofNat k) ((p.map (fun b => encByte (b ^^^ k))).flatten ++ rest) =
      (decTail2 (Int.ofNat k) rest).map (fun s => bytesToStr p ++ s) := by
  induction p with
  | nil =>
    simp only [List.map_nil, List.flatten_nil, List.nil_append, bytesToStr]
    cases decTail2 (Int.ofNat k) rest <;> simp
  | cons b bs ih =>
    have hb : b < 256 := hp b (List.mem_cons_self b bs)
    have hbs : ∀ x ∈ bs, x < 256 := fun x hx => hp x (List.mem_cons_of_mem b hx)
    have hxor : b ^^^ k < 256 := xor_lt_256 hb hk
    have hparse : pyIntHex [toHexDigit ((b ^^^ k) / 16), toHexDigit ((b ^^^ k) % 16)] =
        some (Int.ofNat (b ^^^ k)) := pyIntHex_encByte hxor
    have hx : pyXor (Int.ofNat (b ^^^ k)) (Int.ofNat k) = Int.ofNat b := by
      show Int.ofNat ((b ^^^ k) ^^^ k) = Int.ofNat b
      rw [Nat.xor_cancel_right]
    have hchr : pyChr (pyXor (Int.ofNat (b ^^^ k)) (Int.ofNat k)) = some (Char.ofNat b) := by
      rw [hx]; exact pyChr_ofNat (by omega)
    simp only [List.map_cons, List.flatten_cons, List.append_assoc]
    rw [encByte]
    simp only [List.cons_append, List.nil_append]
    rw [decTail2_step hparse hchr, ih hbs]
    cases decTail2 (Int.ofNat k) rest <;> simp [bytesToStr]

theorem decTail3_payload {k : Nat} (hk : k < 256) (p : List Nat) (hp : ∀ b ∈ p, b < 256)
    (rest : List Char) :
    decTail3 (Int.ofNat k) ((p.map (fun b => encByte (b ^^^ k))).flatten ++ rest) =
      (decTail3 (Int.ofNat k) rest).map (fun s => bytesToStr p ++ s) := by
  induction p with
  | nil =>
    simp only [List.map_nil, List.flatten_nil, List.nil_append, bytesToStr]
    cases decTail3 (Int.ofNat k) rest <;> simp
  | cons b bs ih =>
    have hb : b < 256 := hp b (List.mem_cons_self b bs)
    have hbs : ∀ x ∈ bs, x < 256 := fun x hx => hp x (List.mem_cons_of_mem b hx)
    have hxor : b ^^^ k < 256 := xor_lt_256 hb hk
    have hparse : pyIntHex [toHexDigit ((b ^^^ k) / 16), toHexDigit ((b ^^^ k) % 16)] =
        some (Int.ofNat (b ^^^ k)) := pyIntHex_encByte hxor
    have hx : pyXor (Int.ofNat (b ^^^ k)) (Int.ofNat k) = Int.ofNat b := by
      show Int.ofNat ((b ^^^ k) ^^^ k) = Int.ofNat b
      rw [Nat.xor_cancel_right]
    have hchr : pyChr (pyXor (Int.ofNat (b ^^^ k)) (Int.ofNat k)) = some (Char.ofNat b) := by
      rw [hx]; exact pyChr_ofNat (by omega)
    simp only [List.map_cons, List.flatten_cons, List.append_assoc]
    rw [encByte]
    simp only [List.cons_append, List.nil_append]
    rw [decTail3_step hparse hchr, ih hbs]
    cases decTail3 (Int.ofNat k) rest <;> simp [bytesToStr]

theorem encode_shape (k : Nat) (p : List Nat) :
    encode k p = toHexDigit (k / 16) :: toHexDigit (k % 16) ::
      (p.map (fun b => encByte (b ^^^ k))).flatten := by
  simp [encode, encByte]

/-- C1: Decoder round-trip — for every key byte `k` and payload bytes `p`,
decoding the hex string `encode k p` (key hex-encoded, then each payload
byte xored with `k` and hex-encoded) recovers the string whose characters
are the bytes of `p`, for both `cf_decode` variants. -/
theorem c1_decoder_roundtrip : ∀ k : Nat, k < 256 → ∀ p : List Nat, (∀ b ∈ p, b < 256) →
    cf_decode2 (encode k p) = bytesToStr p ∧ cf_decode3 (encode k p) = some (bytesToStr p) := by
  intro k hk p hp
  have hstrip : pyStripBoth (encode k p) = encode k p := noSpace_strip (encode_not_space hk hp)
  have hshape := encode_shape k p
  have hlen : ¬ ((encode k p).length < 2) := by
    rw [hshape]; simp
  have htake : (encode k p).take 2 = [toHexDigit (k / 16), toHexDigit (k % 16)] := by
    rw [hshape]; rfl
  have hdrop : (encode k p).drop 2 = (p.map (fun b => encByte (b ^^^ k))).flatten := by
    rw [hshape]; rfl
  have hkey : pyIntHex [toHexDigit (k / 16), toHexDigit (k % 16)] = some (Int.ofNat k) := by
    have := pyIntHex_encByte hk
    simpa [encByte] using this
  have hpay2 : decTail2 (Int.ofNat k) ((p.map (fun b => encByte (b ^^^ k))).flatten) =
      some (bytesToStr p) := by
    have h := decTail2_payload hk p hp []
    simpa [decTail2] using h
  have hpay3 : decTail3 (Int.ofNat k) ((p.map (fun b => encByte (b ^^^ k))).flatten) =
      some (bytesToStr p) := by
    have h := decTail3_payload hk p hp []
    simpa [decTail3] using h
  constructor
  · simp only [cf_decode2, cf_decode2Raw, hstrip, htake, hdrop, hkey, hpay2,
      if_neg hlen, Option.getD_some]
  · simp only [cf_decode3, htake, hdrop, hkey, hpay3]

/-- C1 witness: the round-trip at key 1 and payload `[97]`. -/
theorem c1_decoder_roundtrip_witness :
    1 < 256 ∧ (∀ b ∈ [97], b < 256) ∧
      (cf_decode2 (encode 1 [97]) = bytesToStr [97] ∧
       cf_decode3 (encode 1 [97]) = some (bytesToStr [97])) :=
  ⟨by decide, by decide, c1_decoder_roundtrip 1 (by decide) [97] (by decide)⟩

/-- C2 counterexample: the claim says every input of length `< 2` makes the
decoder return the empty string rather than raise, but `cf_decode` of
src/scraper3.py raises (`int('', 16)` fails) on the empty string. -/
theorem c2_short_counterexample :
    ([] : List Char).length < 2 ∧ cf_decode3 [] = none ∧ cf_decode3 [] ≠ some [] := by
  decide

/-- C2 amended: for inputs of length `< 2`, `cf_decode` of src/scraper2.py
returns the empty string; `cf_decode` of src/scraper3.py returns the empty
string exactly when the input parses as a hex key (a single hex digit) and
raises otherwise — in particular on the empty string. -/
theorem c2_short_amended : ∀ s : List Char, s.length < 2 →
    cf_decode2 s = [] ∧ cf_decode3 s = (pyIntHex s).map (fun _ => []) := by
  intro s hs
  have hlen : (pyStripBoth s).length < 2 :=
    Nat.lt_of_le_of_lt (pyStripBoth_length_le s) hs
  refine ⟨by simp [cf_decode2, cf_decode2Raw, hlen], ?_⟩
  match s, hs with
  | [], _ => decide
  | [c], _ =>
    show (match pyIntHex [c] with
          | none => none
          | some key => decTail3 key []) = _
    cases hv : pyIntHex [c] with
    | none => simp [hv]
    | some k => simp [hv, decTail3]

/-- C2 witness: the amended claim at the one-character input `"1"`. -/
theorem c2_short_amended_witness :
    (['1'] : List Char).length < 2 ∧ cf_decode2 ['1'] = [] ∧ cf_decode3 ['1'] = some [] := by
  refine ⟨by decide, (c2_short_amended ['1'] (by decide)).1, ?_⟩
  rw [(c2_short_amended ['1'] (by decide)).2]
  decide

/-- C4 counterexample: on the odd-length all-hex input `"0a1"`,
`cf_decode` of src/scraper3.py neither drops the incomplete final pair
(which would give the empty string) nor fails: it parses the lone `'1'`
as a one-digit byte and returns `chr(1 xor 10)`. -/
theorem c4_odd_counterexample :
    ("0a1".toList).length % 2 = 1 ∧ 3 ≤ ("0a1".toList).length ∧
    (∀ c ∈ "0a1".toList, isHexB c = true) ∧
    cf_decode3 ("0a1".toList) = some [Char.ofNat 11] ∧
    cf_decode3 ("0a1".toList) ≠ none ∧
    cf_decode3 ("0a1".toList) ≠ some [] := by
  decide

theorem decTail3_single {key b : Int} {c : Char} {ch : Char}
    (h₁ : pyIntHex [c] = some b) (h₂ : pyChr (pyXor b key) = some ch) :
    decTail3 key [c] = some [ch] := by
  have e1 : decTail3 key [c] =
      match pyIntHex [c] with
      | none => none
      | some b =>
        match pyChr (pyXor b key) with
        | none => none
        | some ch => some [ch] := rfl
  rw [e1, h₁]
  show (match pyChr (pyXor b key) with
        | none => none
        | some ch => some [ch]) = some [ch]
  rw [h₂]

theorem char_le_toNat {a b : Char} (h : a ≤ b) : a.toNat ≤ b.toNat := by
  rw [Char.le_def, UInt32.le_def, BitVec.le_def] at h
  exact h

theorem hexVal_lt {c : Char} {v : Nat} (h : hexVal c = some v) : v < 16 := by
  unfold hexVal at h
  split_ifs at h with h₁ h₂ h₃
  · have hb := char_le_toNat h₁.2
    have h9 : ('9' : Char).toNat = 57 := rfl
    rw [h9] at hb
    cases h
    omega
  · have hb := char_le_toNat h₂.2
    have hf : ('f' : Char).toNat = 102 := rfl
    rw [hf] at hb
    cases h
    omega
  · have hb := char_le_toNat h₃.2
    have hf : ('F' : Char).toNat = 70 := rfl
    rw [hf] at hb
    cases h
    omega

theorem hex_not_space {c : Char} (h : isHexB c = true) : isSpaceC c = false := by
  by_cases hs : isSpaceC c = true
  · exfalso
    simp only [isSpaceC, Bool.or_eq_true, decide_eq_true_eq] at hs
    rcases hs with ⟨⟨⟨⟨h' | h'⟩ | h'⟩ | h'⟩ | h'⟩ | h' <;> subst h' <;>
      exact absurd h (by decide)
  · simpa using hs

theorem pyIntHex_hexPair {c₁ c₂ : Char} {v₁ v₂ : Nat}
    (h₁ : hexVal c₁ = some v₁) (h₂ : hexVal c₂ = some v₂) :
    pyIntHex [c₁, c₂] = some (Int.ofNat (16 * v₁ + v₂)) := by
  simp [pyIntHex, h₁, h₂]

/-- Joint behaviour of the two decoder loops on an even-length string of
hex digits (of either case): both succeed with the same result, and
appending one extra hex digit `dc` is ignored by scraper2's loop while
scraper3's loop appends `chr(d xor k)`. -/
theorem decTails_hex {k : Nat} (hk : k < 256) : ∀ cs : List Char,
    (∀ c ∈ cs, isHexB c = true) → cs.length % 2 = 0 →
    ∃ r : List Char, decTail2 (Int.ofNat k) cs = some r ∧
      decTail3 (Int.ofNat k) cs = some r ∧
      ∀ (dc : Char) (d : Nat), hexVal dc = some d →
        decTail2 (Int.ofNat k) (cs ++ [dc]) = some r ∧
        decTail3 (Int.ofNat k) (cs ++ [dc]) = some (r ++ [Char.ofNat (d ^^^ k)])
  | [], _, _ => by
    refine ⟨[], rfl, rfl, ?_⟩
    intro dc d hd
    have hdig : pyIntHex [dc] = some (Int.ofNat d) := by simp [pyIntHex, hd]
    have hch : pyChr (pyXor (Int.ofNat d) (Int.ofNat k)) = some (Char.ofNat (d ^^^ k)) := by
      show pyChr (Int.ofNat (d ^^^ k)) = some (Char.ofNat (d ^^^ k))
      have hd16 := hexVal_lt hd
      have : d ^^^ k < 256 := xor_lt_256 (by omega) hk
      exact pyChr_ofNat (by omega)
    exact ⟨rfl, decTail3_single hdig hch⟩
  | [c], _, hpar => by simp at hpar
  | c₁ :: c₂ :: rest, hhex, hpar => by
    obtain ⟨v₁, hv₁⟩ := Option.isSome_iff_exists.mp (hhex c₁ (by simp))
    obtain ⟨v₂, hv₂⟩ := Option.isSome_iff_exists.mp (hhex c₂ (by simp))
    have hb16₁ := hexVal_lt hv₁
    have hb16₂ := hexVal_lt hv₂
    have hblt : 16 * v₁ + v₂ < 256 := by omega
    have hpair : pyIntHex [c₁, c₂] = some (Int.ofNat (16 * v₁ + v₂)) := pyIntHex_hexPair hv₁ hv₂
    have hch : pyChr (pyXor (Int.ofNat (16 * v₁ + v₂)) (Int.ofNat k)) =
        some (Char.ofNat ((16 * v₁ + v₂) ^^^ k)) := by
      show pyChr (Int.ofNat ((16 * v₁ + v₂) ^^^ k)) = _
      have : (16 * v₁ + v₂) ^^^ k < 256 := xor_lt_256 hblt hk
      exact pyChr_ofNat (by omega)
    have hrest : ∀ c ∈ rest, isHexB c = true :=
      fun c hc => hhex c (List.mem_cons_of_mem _ (List.mem_cons_of_mem _ hc))
    have hparr : rest.length % 2 = 0 := by
      simp only [List.length_cons] at hpar
      omega
    obtain ⟨r, hr2, hr3, happ⟩ := decTails_hex hk rest hrest hparr
    refine ⟨Char.ofNat ((16 * v₁ + v₂) ^^^ k) :: r, ?_, ?_, ?_⟩
    · rw [decTail2_step hpair hch, hr2]
      rfl
    · rw [decTail3_step hpair hch, hr3]
      rfl
    · intro dc d hd
      obtain ⟨ha2, ha3⟩ := happ dc d hd
      constructor
      · show decTail2 (Int.ofNat k) (c₁ :: c₂ :: (rest ++ [dc])) = _
        rw [decTail2_step hpair hch, ha2]
        rfl
      · show decTail3 (Int.ofNat k) (c₁ :: c₂ :: (rest ++ [dc])) = _
        rw [decTail3_step hpair hch, ha3]
        rfl

/-- C4 amended: every odd-length hex input of length ≥ 3 decomposes as a
key pair `k₁k₂`, an even-length body of complete pairs and one trailing
hex digit `dc` (uppercase or lowercase).  On it, `cf_decode` of
src/scraper2.py drops the incomplete final pair and returns exactly the
decode of the complete pairs, while `cf_decode` of src/scraper3.py decodes
the complete pairs identically and additionally parses the lone trailing
character as a one-digit byte, appending `chr(d xor key)`. -/
theorem c4_odd_amended : ∀ (k₁ k₂ dc : Char) (body : List Char),
    isHexB k₁ = true → isHexB k₂ = true → isHexB dc = true →
    (∀ c ∈ body, isHexB c = true) → body.length % 2 = 0 →
    cf_decode2 (k₁ :: k₂ :: (body ++ [dc])) = cf_decode2 (k₁ :: k₂ :: body) ∧
    cf_decode3 (k₁ :: k₂ :: body) = some (cf_decode2 (k₁ :: k₂ :: body)) ∧
    cf_decode3 (k₁ :: k₂ :: (body ++ [dc])) =
      some (cf_decode2 (k₁ :: k₂ :: body) ++
        [Char.ofNat ((hexVal dc).getD 0 ^^^
          (16 * (hexVal k₁).getD 0 + (hexVal k₂).getD 0))]) := by
  intro k₁ k₂ dc body h₁ h₂ h₃ hbody hpar
  obtain ⟨v₁, hv₁⟩ := Option.isSome_iff_exists.mp h₁
  obtain ⟨v₂, hv₂⟩ := Option.isSome_iff_exists.mp h₂
  obtain ⟨d, hvd⟩ := Option.isSome_iff_exists.mp h₃
  have hklt : 16 * v₁ + v₂ < 256 := by
    have := hexVal_lt hv₁
    have := hexVal_lt hv₂
    omega
  have hkey : pyIntHex [k₁, k₂] = some (Int.ofNat (16 * v₁ + v₂)) := pyIntHex_hexPair hv₁ hv₂
  obtain ⟨r, hr2, hr3, happ⟩ := decTails_hex hklt body hbody hpar
  obtain ⟨ha2, ha3⟩ := happ dc d hvd
  have hns_e : ∀ c ∈ k₁ :: k₂ :: body, isSpaceC c = false := by
    intro c hc
    rcases List.mem_cons.mp hc with rfl | hc'
    · exact hex_not_space h₁
    rcases List.mem_cons.mp hc' with rfl | hc''
    · exact hex_not_space h₂
    · exact hex_not_space (hbody c hc'')
  have hns_o : ∀ c ∈ k₁ :: k₂ :: (body ++ [dc]), isSpaceC c = false := by
    intro c hc
    rcases List.mem_cons.mp hc with rfl | hc'
    · exact hex_not_space h₁
    rcases List.mem_cons.mp hc' with rfl | hc''
    · exact hex_not_space h₂
    rcases List.mem_append.mp hc'' with hc₃ | hc₃
    · exact hex_not_space (hbody c hc₃)
    · rw [List.mem_singleton.mp hc₃]
      exact hex_not_space h₃
  have hstrip_e := noSpace_strip hns_e
  have hstrip_o := noSpace_strip hns_o
  have hlen_e : ¬ ((k₁ :: k₂ :: body).length < 2) := by simp
  have hlen_o : ¬ ((k₁ :: k₂ :: (body ++ [dc])).length < 2) := by simp
  have htake_e : (k₁ :: k₂ :: body).take 2 = [k₁, k₂] := rfl
  have hdrop_e : (k₁ :: k₂ :: body).drop 2 = body := rfl
  have htake_o : (k₁ :: k₂ :: (body ++ [dc])).take 2 = [k₁, k₂] := rfl
  have hdrop_o : (k₁ :: k₂ :: (body ++ [dc])).drop 2 = body ++ [dc] := rfl
  have hd2e : cf_decode2 (k₁ :: k₂ :: body) = r := by
    simp only [cf_decode2, cf_decode2Raw, hstrip_e, htake_e, hdrop_e, hkey, hr2,
      if_neg hlen_e, Option.getD_some]
  refine ⟨?_, ?_, ?_⟩
  · rw [hd2e]
    simp only [cf_decode2, cf_decode2Raw, hstrip_o, htake_o, hdrop_o, hkey, ha2,
      if_neg hlen_o, Option.getD_some]
  · rw [hd2e]
    simp only [cf_decode3, htake_e, hdrop_e, hkey, hr3]
  · rw [hd2e, hv₁, hv₂, hvd]
    simp only [Option.getD_some]
    simp only [cf_decode3, htake_o, hdrop_o, hkey, ha3]

/-- C4 witness: the amended claim at the uppercase odd-length input
`"0A1"` (key pair `"0A"`, empty body, trailing digit `'1'`). -/
theorem c4_odd_amended_witness :
    isHexB '0' = true ∧ isHexB 'A' = true ∧ isHexB '1' = true ∧
    (cf_decode2 ['0', 'A', '1'] = cf_decode2 ['0', 'A'] ∧
     cf_decode3 ['0', 'A'] = some (cf_decode2 ['0', 'A']) ∧
     cf_decode3 ['0', 'A', '1'] =
       some (cf_decode2 ['0', 'A'] ++
         [Char.ofNat ((hexVal '1').getD 0 ^^^
           (16 * (hexVal '0').getD 0 + (hexVal 'A').getD 0))])) :=
  ⟨by decide, by decide, by decide,
   c4_odd_amended '0' 'A' '1' [] (by decide) (by decide) (by decide) (by decide) (by decide)⟩

theorem badCharB_props {c : Char} (h : badCharB c = true) :
    hexVal c = none ∧ isSpaceC c = false ∧ c ≠ '+' ∧ c ≠ '-' := by
  simp only [badCharB, isHexB, Bool.not_eq_true', Bool.or_eq_false_iff] at h
  obtain ⟨⟨⟨h₁, h₂⟩, h₃⟩, h₄⟩ := h
  refine ⟨?_, h₂, ?_, ?_⟩
  · cases hv : hexVal c with
    | none => rfl
    | some v => rw [hv] at h₁; cases h₁
  · intro he; rw [he] at h₃; simp at h₃
  · intro he; rw [he] at h₄; simp at h₄

theorem pyIntHex_bad_single {c : Char} (h : badCharB c = true) : pyIntHex [c] = none := by
  obtain ⟨h₁, _, _, _⟩ := badCharB_props h
  simp [pyIntHex, h₁]

theorem pyIntHex_bad_left {c x : Char} (h : badCharB c = true) : pyIntHex [c, x] = none := by
  obtain ⟨h₁, h₂, h₃, h₄⟩ := badCharB_props h
  cases hx : hexVal x with
  | none => simp [pyIntHex, h₁, hx]
  | some v => simp [pyIntHex, h₁, hx, h₂, h₃, h₄]

theorem pyIntHex_bad_right {c x : Char} (h : badCharB c = true) : pyIntHex [x, c] = none := by
  obtain ⟨h₁, h₂, _, _⟩ := badCharB_props h
  cases hx : hexVal x with
  | none => simp [pyIntHex, h₁, hx]
  | some v => simp [pyIntHex, h₁, hx, h₂]

theorem decTail3_single_none {key : Int} {c : Char} (h : pyIntHex [c] = none) :
    decTail3 key [c] = none := by
  have e1 : decTail3 key [c] =
      match pyIntHex [c] with
      | none => none
      | some b =>
        match pyChr (pyXor b key) with
        | none => none
        | some ch => some [ch] := rfl
  rw [e1, h]

theorem decTail3_cons₂_none {key : Int} {c₁ c₂ : Char} {rest : List Char}
    (h : pyIntHex [c₁, c₂] = none) : decTail3 key (c₁ :: c₂ :: rest) = none := by
  have e1 : decTail3 key (c₁ :: c₂ :: rest) =
      match pyIntHex [c₁, c₂] with
      | none => none
      | some b =>
        match pyChr (pyXor b key) with
        | none => none
        | some ch => (decTail3 key rest).map (fun s => ch :: s) := rfl
  rw [e1, h]

theorem decTail3_cons₂_chr_none {key b : Int} {c₁ c₂ : Char} {rest : List Char}
    (h₁ : pyIntHex [c₁, c₂] = some b) (h₂ : pyChr (pyXor b key) = none) :
    decTail3 key (c₁ :: c₂ :: rest) = none := by
  have e1 : decTail3 key (c₁ :: c₂ :: rest) =
      match pyIntHex [c₁, c₂] with
      | none => none
      | some b =>
        match pyChr (pyXor b key) with
        | none => none
        | some ch => (decTail3 key rest).map (fun s => ch :: s) := rfl
  rw [e1, h₁]
  show (match pyChr (pyXor b key) with
        | none => none
        | some ch => (decTail3 key rest).map (fun s => ch :: s)) = none
  rw [h₂]

theorem decTail2_cons₂_none {key : Int} {c₁ c₂ : Char} {rest : List Char}
    (h : pyIntHex [c₁, c₂] = none) : decTail2 key (c₁ :: c₂ :: rest) = none := by
  have e1 : decTail2 key (c₁ :: c₂ :: rest) =
      match pyIntHex [c₁, c₂] with
      | none => none
      | some b =>
        match pyChr (pyXor b key) with
        | none => none
        | some ch => (decTail2 key rest).map (fun s => ch :: s) := rfl
  rw [e1, h]

theorem decTail2_cons₂_chr_none {key b : Int} {c₁ c₂ : Char} {rest : List Char}
    (h₁ : pyIntHex [c₁, c₂] = some b) (h₂ : pyChr (pyXor b key) = none) :
    decTail2 key (c₁ :: c₂ :: rest) = none := by
  have e1 : decTail2 key (c₁ :: c₂ :: rest) =
      match pyIntHex [c₁, c₂] with
      | none => none
      | some b =>
        match pyChr (pyXor b key) with
        | none => none
        | some ch => (decTail2 key rest).map (fun s => ch :: s) := rfl
  rw [e1, h₁]
  show (match pyChr (pyXor b key) with
        | none => none
        | some ch => (decTail2 key rest).map (fun s => ch :: s)) = none
  rw [h₂]

theorem decTail3_bad {key : Int} :
    ∀ (cs : List Char) (c : Char), c ∈ cs → badCharB c = true → decTail3 key cs = none
  | [], c, hc, _ => absurd hc (List.not_mem_nil c)
  | [c₁], c, hc, hb => by
    have hcc : c = c₁ := by simpa using hc
    subst hcc
    exact decTail3_single_none (pyIntHex_bad_single hb)
  | c₁ :: c₂ :: rest, c, hc, hb => by
    rcases List.mem_cons.mp hc with rfl | hc'
    · exact decTail3_cons₂_none (pyIntHex_bad_left hb)
    rcases List.mem_cons.mp hc' with rfl | hc''
    · exact decTail3_cons₂_none (pyIntHex_bad_right hb)
    cases hk : pyIntHex [c₁, c₂] with
    | none => exact decTail3_cons₂_none hk
    | some b =>
      cases hch : pyChr (pyXor b key) with
      | none => exact decTail3_cons₂_chr_none hk hch
      | some ch =>
        rw [decTail3_step hk hch, decTail3_bad rest c hc'' hb]
        rfl

theorem decTail2_bad {key : Int} :
    ∀ (cs : List Char) (c : Char), c ∈ cs.take (2 * (cs.length / 2)) → badCharB c = true →
      decTail2 key cs = none
  | [], c, hc, _ => absurd hc (by simp)
  | [c₁], c, hc, _ => absurd hc (by simp)
  | c₁ :: c₂ :: rest, c, hc, hb => by
    have harith : 2 * ((c₁ :: c₂ :: rest).length / 2) =
        Nat.succ (Nat.succ (2 * (rest.length / 2))) := by
      simp only [List.length_cons]
      omega
    rw [harith, List.take_succ_cons, List.take_succ_cons] at hc
    rcases List.mem_cons.mp hc with rfl | hc'
    · exact decTail2_cons₂_none (pyIntHex_bad_left hb)
    rcases List.mem_cons.mp hc' with rfl | hc''
    · exact decTail2_cons₂_none (pyIntHex_bad_right hb)
    cases hk : pyIntHex [c₁, c₂] with
    | none => exact decTail2_cons₂_none hk
    | some b =>
      cases hch : pyChr (pyXor b key) with
      | none => exact decTail2_cons₂_chr_none hk hch
      | some ch =>
        rw [decTail2_step hk hch, decTail2_bad rest c hc'' hb]
        rfl

/-- C3 counterexample: on the length-2 non-hex input `"zz"` the body of
scraper2's `cf_decode` raises (the key parse fails), but the `except`
clause turns this into the returned empty string — the decoder silently
returns a value instead of failing, contrary to the claim. -/
theorem c3_nonhex_counterexample :
    2 ≤ (['z', 'z'] : List Char).length ∧ badCharB 'z' = true ∧
    cf_decode2Raw ['z', 'z'] = none ∧ cf_decode2 ['z', 'z'] = [] := by
  decide

/-- C3 amended: for an input of length ≥ 2 containing a character that can
occur in no successfully parsed slice (not a hex digit, whitespace or
sign), scraper3's decoder raises an error, while scraper2's decoder
catches the failure and returns the empty string whenever such a character
sits in a position the algorithm parses (the stripped input minus a lone
trailing character). -/
theorem c3_nonhex_amended : ∀ (s : List Char) (c : Char), c ∈ s → badCharB c = true →
    2 ≤ s.length →
    cf_decode3 s = none ∧ (c ∈ parsedSlots2 s → cf_decode2 s = []) := by
  intro s c hc hb hlen
  constructor
  · match s, hlen with
    | c₁ :: c₂ :: rest, _ =>
      show (match pyIntHex [c₁, c₂] with
            | none => none
            | some key => decTail3 key rest) = none
      rcases List.mem_cons.mp hc with rfl | hc'
      · rw [pyIntHex_bad_left hb]
      rcases List.mem_cons.mp hc' with rfl | hc''
      · rw [pyIntHex_bad_right hb]
      cases hk : pyIntHex [c₁, c₂] with
      | none => rfl
      | some key =>
        show decTail3 key rest = none
        exact decTail3_bad rest c hc'' hb
  · intro hcp
    unfold parsedSlots2 at hcp
    by_cases hlt : (pyStripBoth s).length < 2
    · exfalso
      have h0 : 2 * ((pyStripBoth s).length / 2) = 0 := by omega
      rw [h0] at hcp
      simp at hcp
    · suffices hraw : cf_decode2Raw s = none by simp [cf_decode2, hraw]
      simp only [cf_decode2Raw]
      rw [if_neg hlt]
      cases hsp : pyStripBoth s with
      | nil => rw [hsp] at hlt; simp at hlt
      | cons t₁ r =>
        cases r with
        | nil => rw [hsp] at hlt; simp at hlt
        | cons t₂ tr =>
          rw [hsp] at hcp
          have harith : 2 * ((t₁ :: t₂ :: tr).length / 2) =
              Nat.succ (Nat.succ (2 * (tr.length / 2))) := by
            simp only [List.length_cons]
            omega
          rw [harith, List.take_succ_cons, List.take_succ_cons] at hcp
          show (match pyIntHex [t₁, t₂] with
                | none => none
                | some key => decTail2 key tr) = none
          rcases List.mem_cons.mp hcp with rfl | hcp'
          · rw [pyIntHex_bad_left hb]
          rcases List.mem_cons.mp hcp' with rfl | hcp''
          · rw [pyIntHex_bad_right hb]
          cases hk : pyIntHex [t₁, t₂] with
          | none => rfl
          | some key =>
            show decTail2 key tr = none
            exact decTail2_bad tr c hcp'' hb

/-- C3 witness: the amended claim at the input `"zz"` with the bad
character `'z'`. -/
theorem c3_nonhex_amended_witness :
    'z' ∈ (['z', 'z'] : List Char) ∧ badCharB 'z' = true ∧ 2 ≤ (['z', 'z'] : List Char).length ∧
    cf_decode3 ['z', 'z'] = none ∧ cf_decode2 ['z', 'z'] = [] :=
  ⟨by decide, by decide, by decide,
   (c3_nonhex_amended ['z', 'z'] 'z' (by decide) (by decide) (by decide)).1,
   (c3_nonhex_amended ['z', 'z'] 'z' (by decide) (by decide) (by decide)).2 (by decide)⟩

/-- C5 counterexample: a card with no `__cf_email__` element, one
email-protection anchor and one mailto anchor.  The claimed order tries
the mailto link (strategy 2) before the protection fragment (strategy 3)
and yields `z@w.co`; the primary path of src/scraper2.py tries the
protection links first and yields the decoded `a@b`. -/
theorem c5_email_order_counterexample :
    emailPrimary c5card = "a@b".toList ∧ emailClaimOrder c5card = "z@w.co".toList ∧
    emailPrimary c5card ≠ emailClaimOrder c5card := by
  decide

/-- C5 amended: the email strategies are tried in a strict priority order
with first non-empty success winning and empty on total failure, but the
orders are the ones of the code: primary path — committed cfemail-anchor
decode, protection links (href fragment, then link text), card-text
regex, mailto scan; fallback path — cfemail anchor, mailto link,
protection hrefs, cfemail span, card-text regex, anchor-text scan. -/
theorem foldl_firstHit (c : Card) :
    ∀ (fs : List (Card → List Char)) (a : List Char),
      fs.foldl (fun e f => if e.isEmpty then f c else e) a =
        if a = [] then firstHit fs c else a := by
  intro fs
  induction fs with
  | nil =>
    intro a
    by_cases h : a = [] <;> simp [firstHit, h]
  | cons f rest ih =>
    intro a
    by_cases h : a = []
    · subst h
      rw [List.foldl_cons]
      simp only [List.isEmpty_nil, if_true]
      rw [ih (f c)]
      simp [firstHit]
    · rw [List.foldl_cons]
      have hne : a.isEmpty = false := by simp [h]
      rw [hne]
      simp only [Bool.false_eq_true, if_false]
      rw [ih a, if_neg h, if_neg h]

theorem c5_email_order_amended : ∀ c : Card,
    emailPrimary c = emailPrimarySpec c ∧ emailFallback c = emailFallbackSpec c := by
  intro c
  constructor
  · unfold emailPrimary emailPrimarySpec
    cases hA : cfAnchorAttr c with
    | some v => rfl
    | none =>
      have he : (let e₁ := protLoopPrimary (selProtection c)
                 let e₂ := if e₁.isEmpty then textStrategy c else e₁
                 if e₂.isEmpty then mailtoScan (selAllAnchors c) else e₂) =
          List.foldl (fun e f => if e.isEmpty then f c else e)
            (protLoopPrimary (selProtection c))
            [textStrategy, fun c => mailtoScan (selAllAnchors c)] := rfl
      rw [he, foldl_firstHit]
      simp [firstHit]
  · have he : emailFallback c =
        List.foldl (fun e f => if e.isEmpty then f c else e)
          (match cfAnchorAttr c with | some v => cf_decode2 v | none => [])
          [fun c => match selMailtoOne c with
                    | some e => pyReplaceDel (e.href.getD []) ("mailto:".toList)
                    | none => [],
           fun c => protLoopHrefOnly (selProtection c),
           fun c => match cfSpanAttr c with | some v => cf_decode2 v | none => [],
           textStrategy,
           fun c => scanLinkText (selAllAnchors c)] := rfl
    rw [he, foldl_firstHit]
    simp [emailFallbackSpec, firstHit]

theorem tryAlternatives_eq_find (pg : Page) : ∀ sels : List String,
    tryAlternatives pg sels = (sels.map pg.select).find? (fun cs => !cs.isEmpty) := by
  intro sels
  induction sels with
  | nil => rfl
  | cons sel rest ih =>
    by_cases h : (pg.select sel).isEmpty
    · simp only [List.map_cons]
      rw [List.find?_cons_of_neg _ (by simp [h])]
      rw [← ih]
      simp [tryAlternatives, h]
    · simp only [List.map_cons]
      rw [List.find?_cons_of_pos _ (by simp [List.isEmpty_iff] at h ⊢; exact h)]
      simp [tryAlternatives, h]

/-- C6: Card location uses the first selector — `div.testimonial-cite` or,
if it yields zero matches, the first of the ordered fallback list — that
yields at least one match (the `find?` of the first non-empty query
result); if no selector matches, Step 1 locates zero cards. -/
theorem c6_card_location : ∀ pg : Page,
    locateCards pg =
      ((("div.testimonial-cite" :: alternative_selectors).map pg.select).find?
        (fun cs => !cs.isEmpty)).getD [] ∧
    ((∀ sel ∈ "div.testimonial-cite" :: alternative_selectors, pg.select sel = []) →
      locateCards pg = []) := by
  intro pg
  constructor
  · simp only [locateCards]
    by_cases h : (pg.select ("div.testimonial-cite")).isEmpty
    · rw [if_pos h, tryAlternatives_eq_find]
      simp only [List.map_cons]
      rw [List.find?_cons_of_neg _ (by simp [h])]
    · rw [if_neg h]
      simp only [List.map_cons]
      rw [List.find?_cons_of_pos _ (by simp [List.isEmpty_iff] at h ⊢; exact h)]
      rfl
  · intro hall
    simp only [locateCards]
    have h1 : pg.select ("div.testimonial-cite") = [] :=
      hall _ (List.mem_cons_self _ _)
    rw [h1]
    simp only [List.isEmpty_nil, if_true]
    rw [tryAlternatives_eq_find]
    have hnone : (alternative_selectors.map pg.select).find? (fun cs => !cs.isEmpty) = none := by
      rw [List.find?_eq_none]
      intro x hx
      rw [List.mem_map] at hx
      obtain ⟨sel, hsel, rfl⟩ := hx
      rw [hall sel (List.mem_cons_of_mem _ hsel)]
      simp
    rw [hnone]
    rfl

/-- C6 witness: on a page where every selector comes back empty, Step 1
locates zero cards. -/
theorem c6_card_location_witness :
    (∀ sel ∈ "div.testimonial-cite" :: alternative_selectors, pgNoCards.select sel = []) ∧
    locateCards pgNoCards = [] :=
  ⟨fun _ _ => rfl, (c6_card_location pgNoCards).2 (fun _ _ => rfl)⟩

/-- C7 counterexample: `main` of src/scraper3.py writes every yielded
record with no emptiness filter, so the page whose only card has no name,
company or email elements emits the record with all three fields empty —
the claim says such a record is never emitted. -/
theorem c7_emit_filter_counterexample :
    writtenRows3 pgEmptyCard = [⟨[], [], []⟩] := by
  decide

/-- C7 amended: in src/scraper2.py a record is written only when
`any(record)` holds (at least one of the five fields non-empty), and a
record with empty name fields is still written when its company or email
field is non-empty; a record with all fields empty is never written.
(src/scraper3.py, by contrast, writes records unconditionally — see the
counterexample.) -/
theorem c7_emit_filter_amended : ∀ (pg : Page) (r : Rec5),
    (r ∈ writtenRows2 pg → anyField r = true) ∧
    (r ∈ scrape_page2 pg → anyField r = true → r ∈ writtenRows2 pg) ∧
    (r ∈ scrape_page2 pg → (r.comp ≠ [] ∨ r.email ≠ []) → r ∈ writtenRows2 pg) ∧
    (r.fn = [] → r.ln = [] → r.full = [] → r.comp = [] → r.email = [] →
      r ∉ writtenRows2 pg) := by
  intro pg r
  refine ⟨fun h => (List.mem_filter.mp h).2,
          fun h ha => List.mem_filter.mpr ⟨h, ha⟩, ?_, ?_⟩
  · intro h hne
    apply List.mem_filter.mpr
    refine ⟨h, ?_⟩
    rcases hne with h' | h' <;> simp [anyField, h']
  · intro h1 h2 h3 h4 h5 hmem
    have := (List.mem_filter.mp hmem).2
    simp [anyField, h1, h2, h3, h4, h5] at this

/-- C7 witness: a card with only a company element yields the record
`("", "", "", "X", "")`, which passes the filter and is written. -/
theorem c7_emit_filter_amended_witness :
    (⟨[], [], [], "X".toList, []⟩ : Rec5) ∈ scrape_page2 pgCompanyOnly ∧
    (⟨[], [], [], "X".toList, []⟩ : Rec5) ∈ writtenRows2 pgCompanyOnly :=
  ⟨by decide,
   (c7_emit_filter_amended pgCompanyOnly ⟨[], [], [], "X".toList, []⟩).2.2.1
     (by decide) (by decide)⟩

theorem reSplit_cons (c : Char) (rest : List Char) :
    reSplit (c :: rest) =
      if isSepC c then
        match rest with
        | d :: _ => if isSepC d then reSplit rest else [] :: reSplit rest
        | [] => [] :: reSplit rest
      else
        match reSplit rest with
        | p :: ps => (c :: p) :: ps
        | [] => [[c]] := rfl

theorem reSplit_ne_nil : ∀ t : List Char, reSplit t ≠ []
  | [] => by simp [reSplit]
  | c :: rest => by
    have ih := reSplit_ne_nil rest
    rw [reSplit_cons]
    by_cases hc : isSepC c
    · rw [if_pos hc]
      cases rest with
      | nil => simp
      | cons d rest' =>
        show (if isSepC d then reSplit (d :: rest') else [] :: reSplit (d :: rest')) ≠ []
        by_cases hd : isSepC d
        · rw [if_pos hd]; exact ih
        · rw [if_neg hd]; simp
    · rw [if_neg hc]
      cases hr : reSplit rest with
      | nil => exact absurd hr ih
      | cons p ps => simp

theorem reSplit_no_sep : ∀ t : List Char, ∀ p ∈ reSplit t, ∀ c ∈ p, isSepC c = false
  | [], p, hp, c, hc => by
    simp [reSplit] at hp
    subst hp
    cases hc
  | a :: rest, p, hp, c, hc => by
    have ih := reSplit_no_sep rest
    rw [reSplit_cons] at hp
    by_cases ha : isSepC a
    · rw [if_pos ha] at hp
      cases rest with
      | nil =>
        simp [reSplit] at hp
        subst hp
        cases hc
      | cons d rest' =>
        have hp2 : p ∈ (if isSepC d then reSplit (d :: rest') else [] :: reSplit (d :: rest')) :=
          hp
        by_cases hd : isSepC d
        · rw [if_pos hd] at hp2
          exact ih p hp2 c hc
        · rw [if_neg hd] at hp2
          rcases List.mem_cons.mp hp2 with rfl | hp'
          · cases hc
          · exact ih p hp' c hc
    · rw [if_neg ha] at hp
      cases hr : reSplit rest with
      | nil => exact absurd hr (reSplit_ne_nil rest)
      | cons q qs =>
        rw [hr] at hp
        have hp' : p ∈ (a :: q) :: qs := hp
        rcases List.mem_cons.mp hp' with rfl | hpp
        · rcases List.mem_cons.mp hc with rfl | hcq
          · simpa using ha
          · exact ih q (by rw [hr]; exact List.mem_cons_self _ _) c hcq
        · exact ih p (by rw [hr]; exact List.mem_cons_of_mem _ hpp) c hc

theorem isSpaceC_of_not_sep {c : Char} (h : isSepC c = false) : isSpaceC c = false := by
  simp only [isSepC, Bool.or_eq_false_iff] at h
  exact h.2

theorem filterMap_strip_eq : ∀ l : List (List Char),
    (∀ p ∈ l, ∀ c ∈ p, isSepC c = false) →
    l.filterMap (fun p => let q := pyStripBoth p; if q = [] then none else some q) =
      l.filter (fun p => !p.isEmpty) := by
  intro l h
  induction l with
  | nil => rfl
  | cons p rest ih =>
    have hps : pyStripBoth p = p :=
      noSpace_strip (fun c hc => isSpaceC_of_not_sep (h p (List.mem_cons_self _ _) c hc))
    have ihr := ih (fun q hq => h q (List.mem_cons_of_mem _ hq))
    rw [List.filterMap_cons, List.filter_cons]
    by_cases hp : p = []
    · subst hp
      simp [hps, ihr]
    · simp [hps, hp, ihr, List.isEmpty_iff]

theorem parse_name_tokens (s : List Char) (hs : s ≠ []) :
    parse_name s =
      match tokensOf s with
      | [] => ([], [])
      | [x] => (x, [])
      | x :: y :: rest => (x, ((y :: rest).getLast?).getD []) := by
  have key : ∀ t : List Char,
      (reSplit t).filterMap (fun p => let q := pyStripBoth p; if q = [] then none else some q) =
        (reSplit t).filter (fun p => !p.isEmpty) :=
    fun t => filterMap_strip_eq _ (reSplit_no_sep t)
  unfold parse_name tokensOf
  rw [if_neg hs]
  simp only [key]

/-- C8: `full_name` splits deterministically — with two or more tokens,
`first_name` is the first and `last_name` the last token; one token
populates only `first_name`; empty input yields both empty.  The example
card (name "jane TAN", company "ABC Pte Ltd", mailto `jane@x.com`) yields
exactly one record `("Jane", "Tan", "Jane Tan", "Abc", "jane@x.com")`. -/
theorem c8_name_split :
    (∀ s : List Char, 2 ≤ (tokensOf s).length →
      parse_name s = ((tokensOf s).headD [], (tokensOf s).getLastD [])) ∧
    (∀ s : List Char, (tokensOf s).length = 1 →
      parse_name s = ((tokensOf s).headD [], [])) ∧
    parse_name [] = ([], []) ∧
    scrape_page2 examplePage =
      [⟨"Jane".toList, "Tan".toList, "Jane Tan".toList, "Abc".toList, "jane@x.com".toList⟩] := by
  refine ⟨?_, ?_, by decide, by decide⟩
  · intro s hlen
    have hs : s ≠ [] := by
      intro h
      subst h
      revert hlen
      decide
    rw [parse_name_tokens s hs]
    cases ht : tokensOf s with
    | nil => rw [ht] at hlen; simp at hlen
    | cons x r =>
      cases r with
      | nil => rw [ht] at hlen; simp at hlen
      | cons y rest =>
        simp [List.getLastD_eq_getLast?, List.getLast?_cons_cons]
  · intro s hlen
    have hs : s ≠ [] := by
      intro h
      subst h
      revert hlen
      decide
    rw [parse_name_tokens s hs]
    cases ht : tokensOf s with
    | nil => rw [ht] at hlen; simp at hlen
    | cons x r =>
      cases r with
      | nil => simp
      | cons y rest => rw [ht] at hlen; simp at hlen

/-- C8 witness: the general split at the two-token input "jane TAN". -/
theorem c8_name_split_witness :
    2 ≤ (tokensOf ("jane TAN".toList)).length ∧
    parse_name ("jane TAN".toList) =
      ((tokensOf ("jane TAN".toList)).headD [], (tokensOf ("jane TAN".toList)).getLastD []) :=
  ⟨by decide, c8_name_split.1 ("jane TAN".toList) (by decide)⟩

theorem filterMap_sentinel : ∀ l : List (List Char),
    l.filterMap (fun code =>
      let d := cf_decode2 code
      if d = [] then none else some (sentinelFor d)) =
    ((l.map cf_decode2).filter (fun d => !d.isEmpty)).map sentinelFor := by
  intro l
  induction l with
  | nil => rfl
  | cons code rest ih =>
    rw [List.filterMap_cons, List.map_cons, List.filter_cons]
    by_cases h : cf_decode2 code = []
    · simp [h, ih]
    · simp [h, ih, List.isEmpty_iff]

/-- C9 counterexample: a page with zero cards under every selector and one
raw email-protection fragment `#00` — the claim demands exactly one
sentinel record per match, but the payload decodes to the empty string and
the code emits no record at all. -/
theorem c9_raw_scan_counterexample :
    findCodes pgRawEmptyDecode.rawText = ["00".toList] ∧
    cf_decode2 ("00".toList) = [] ∧
    scrape_page2 pgRawEmptyDecode = [] := by
  decide

/-- C9 amended: with zero cards under every selector, the extractor scans
the raw markup and emits one sentinel record per email-protection match
whose decode is non-empty (matches decoding to the empty string are
skipped); the sentinel fields are the title-cased placeholder values
`("Name", "Found", "Name Not Found", "Company Not Found")` around the
decoded email. -/
theorem c9_raw_scan_amended : ∀ pg : Page,
    pg.select ("div.testimonial-cite") = [] →
    (∀ sel ∈ alternative_selectors, pg.select sel = []) →
    (scrape_page2 pg =
      (((findCodes pg.rawText).map cf_decode2).filter (fun d => !d.isEmpty)).map
        (fun d => ⟨"Name".toList, "Found".toList, "Name Not Found".toList,
                   "Company Not Found".toList, d⟩) ∧
     ∀ r ∈ scrape_page2 pg, r.fn = "Name".toList ∧ r.ln = "Found".toList ∧
       r.full = "Name Not Found".toList ∧ r.comp = "Company Not Found".toList ∧
       r.email ≠ []) := by
  intro pg h1 hall
  have htry : tryAlternatives pg alternative_selectors = none := by
    have h2 := hall "div.search-result-item" (by simp [alternative_selectors])
    have h3 := hall "div.search-specialist-result-item" (by simp [alternative_selectors])
    have h4 := hall "div[class*='result']" (by simp [alternative_selectors])
    have h5 := hall "div[class*='specialist']" (by simp [alternative_selectors])
    simp [tryAlternatives, alternative_selectors, h2, h3, h4, h5]
  have hmain : scrape_page2 pg = rawScanRecords pg.rawText := by
    simp [scrape_page2, h1, htry]
  have hsent : ∀ d : List Char,
      sentinelFor d = ⟨"Name".toList, "Found".toList, "Name Not Found".toList,
        "Company Not Found".toList, d⟩ := by
    intro d
    have hn : parse_name ("Name not found".toList) = ("Name".toList, "Found".toList) := by
      decide
    have hc : clean_company_name ("Company not found".toList) = "Company Not Found".toList := by
      decide
    unfold sentinelFor
    rw [hn, hc]
  constructor
  · rw [hmain]
    unfold rawScanRecords
    rw [filterMap_sentinel]
    exact List.map_congr_left (fun d _ => hsent d)
  · intro r hr
    rw [hmain] at hr
    unfold rawScanRecords at hr
    rw [List.mem_filterMap] at hr
    obtain ⟨code, hcode, hsome⟩ := hr
    have hsome' :
        (if cf_decode2 code = [] then none else some (sentinelFor (cf_decode2 code))) = some r :=
      hsome
    by_cases hd : cf_decode2 code = []
    · rw [if_pos hd] at hsome'
      cases hsome'
    · rw [if_neg hd] at hsome'
      have hr' : r = ⟨"Name".toList, "Found".toList, "Name Not Found".toList,
          "Company Not Found".toList, cf_decode2 code⟩ := by
        rw [← Option.some.inj hsome', hsent]
      subst hr'
      exact ⟨rfl, rfl, rfl, rfl, hd⟩

/-- C9 witness: a page with zero cards and one raw fragment decoding to
`a@b` yields exactly one sentinel record. -/
theorem c9_raw_scan_amended_witness :
    scrape_page2 pgRawGood =
      [⟨"Name".toList, "Found".toList, "Name Not Found".toList,
        "Company Not Found".toList, "a@b".toList⟩] := by
  rw [(c9_raw_scan_amended pgRawGood rfl (fun _ _ => rfl)).1]
  decide

theorem matchCI_length : ∀ (lit s r : List Char), matchCI lit s = some r →
    r.length + lit.length = s.length
  | [], s, r, h => by
    simp [matchCI] at h
    subst h
    simp
  | l :: ls, [], r, h => by simp [matchCI] at h
  | l :: ls, c :: cs, r, h => by
    unfold matchCI at h
    by_cases hc : toLowerC c = l
    · rw [if_pos hc] at h
      have := matchCI_length ls cs r h
      simp only [List.length_cons]
      omega
    · rw [if_neg hc] at h
      cases h

theorem matchPteLtd_some_lt {s r : List Char} (h : matchPteLtd s = some r) :
    r.length < s.length := by
  unfold matchPteLtd at h
  cases h₁ : matchCI ['p', 't', 'e'] (s.dropWhile isSpaceC) with
  | none => simp only [h₁] at h; exact Option.noConfusion h
  | some s₂ =>
    simp only [h₁] at h
    cases h₂ : matchCI ['l', 't', 'd'] (s₂.dropWhile isSpaceC) with
    | none => simp only [h₂] at h; exact Option.noConfusion h
    | some s₃ =>
      simp only [h₂, Option.some.injEq] at h
      have l1 := matchCI_length _ _ _ h₁
      have l2 := matchCI_length _ _ _ h₂
      have d0 := dropWhile_length_le isSpaceC s
      have d1 := dropWhile_length_le isSpaceC s₂
      have d2 := dropWhile_length_le isSpaceC s₃
      have hr : r.length ≤ s₃.length := by
        rw [← h]
        exact dropWhile_length_le isSpaceC s₃
      simp only [List.length_cons, List.length_nil] at l1 l2
      omega

theorem pteLtdSubGo_nil : ∀ f : Nat, pteLtdSubGo f [] = [] := by
  intro f
  cases f <;> rfl

theorem pteLtdSubGo_cons (f : Nat) (c : Char) (rest : List Char) :
    pteLtdSubGo (f + 1) (c :: rest) =
      match matchPteLtd (c :: rest) with
      | some rem => pteLtdSubGo f rem
      | none => c :: pteLtdSubGo f rest := rfl

theorem pteLtdSubGo_congr : ∀ (f g : Nat) (s : List Char), s.length ≤ f → s.length ≤ g →
    pteLtdSubGo f s = pteLtdSubGo g s
  | 0, g, s, hf, _ => by
    have hnil : s = [] := List.length_eq_zero.mp (Nat.le_zero.mp hf)
    subst hnil
    rw [pteLtdSubGo_nil, pteLtdSubGo_nil]
  | _ + 1, _, [], _, _ => by rw [pteLtdSubGo_nil, pteLtdSubGo_nil]
  | f + 1, g, c :: rest, hf, hg => by
    cases g with
    | zero => simp at hg
    | succ g' =>
      rw [pteLtdSubGo_cons, pteLtdSubGo_cons]
      simp only [List.length_cons] at hf hg
      cases hm : matchPteLtd (c :: rest) with
      | some rem =>
        simp only [hm]
        have hlt := matchPteLtd_some_lt hm
        simp only [List.length_cons] at hlt
        exact pteLtdSubGo_congr f g' rem (by omega) (by omega)
      | none =>
        simp only [hm]
        rw [pteLtdSubGo_congr f g' rest (by omega) (by omega)]

theorem pteLtdSub_cons (c : Char) (rest : List Char) :
    pteLtdSub (c :: rest) =
      match matchPteLtd (c :: rest) with
      | some rem => pteLtdSub rem
      | none => c :: pteLtdSub rest := by
  show pteLtdSubGo (c :: rest).length (c :: rest) = _
  rw [show (c :: rest).length = rest.length + 1 from rfl, pteLtdSubGo_cons]
  cases hm : matchPteLtd (c :: rest) with
  | some rem =>
    simp only [hm]
    have hlt := matchPteLtd_some_lt hm
    simp only [List.length_cons] at hlt
    exact pteLtdSubGo_congr _ _ rem (by omega) (Nat.le_refl _)
  | none => simp only [hm]; rfl

theorem dropWhile_spaces_append {ws rest : List Char} (h : ∀ c ∈ ws, isSpaceC c = true) :
    (ws ++ rest).dropWhile isSpaceC = rest.dropWhile isSpaceC := by
  induction ws with
  | nil => rfl
  | cons w ws' ih =>
    rw [List.cons_append, List.dropWhile_cons_of_pos (h w (List.mem_cons_self _ _))]
    exact ih (fun c hc => h c (List.mem_cons_of_mem _ hc))

theorem dropWhile_head_false {l : List Char} (h : ∀ c ∈ l.take 1, isSpaceC c = false) :
    l.dropWhile isSpaceC = l := by
  cases l with
  | nil => rfl
  | cons c rest =>
    have h0 : isSpaceC c = false := h c (by simp)
    exact List.dropWhile_cons_of_neg (by simp [h0])

theorem toLowerC_space {c : Char} (h : isSpaceC c = true) : toLowerC c = c := by
  simp only [isSpaceC, Bool.or_eq_true, decide_eq_true_eq] at h
  rcases h with ⟨⟨⟨⟨h | h⟩ | h⟩ | h⟩ | h⟩ | h <;> subst h <;> decide

theorem matchCI_spells : ∀ (pm lit rest : List Char), pm.map toLowerC = lit →
    matchCI lit (pm ++ rest) = some rest
  | [], lit, rest, h => by
    simp at h
    subst h
    rfl
  | c :: pm', lit, rest, h => by
    subst h
    show matchCI (toLowerC c :: pm'.map toLowerC) (c :: (pm' ++ rest)) = some rest
    unfold matchCI
    rw [if_pos rfl]
    exact matchCI_spells pm' _ rest rfl

theorem spells_head_nonspace {pm : List Char} {l : Char} {ls : List Char}
    (h : pm.map toLowerC = l :: ls) (hl : isSpaceC l = false) :
    ∀ c ∈ pm.take 1, isSpaceC c = false := by
  cases pm with
  | nil => simp at h
  | cons p₀ t =>
    intro c hc
    have hc' : c = p₀ := by simpa using hc
    subst hc'
    rw [List.map_cons, List.cons.injEq] at h
    obtain ⟨hp, _⟩ := h
    by_cases hs : isSpaceC c = true
    · rw [toLowerC_space hs] at hp
      subst hp
      rw [hs] at hl
      cases hl
    · simpa using hs

theorem matchPteLtd_occ {ws1 pm ws2 lm ws3 b : List Char}
    (h1 : ∀ c ∈ ws1, isSpaceC c = true) (h2 : ∀ c ∈ ws2, isSpaceC c = true)
    (h3 : ∀ c ∈ ws3, isSpaceC c = true)
    (hpm : pm.map toLowerC = ['p', 't', 'e']) (hlm : lm.map toLowerC = ['l', 't', 'd'])
    (hb : ∀ c ∈ b.take 1, isSpaceC c = false) :
    matchPteLtd (ws1 ++ (pm ++ (ws2 ++ (lm ++ (ws3 ++ b))))) = some b := by
  have hpm_head : ∀ c ∈ (pm ++ (ws2 ++ (lm ++ (ws3 ++ b)))).take 1, isSpaceC c = false := by
    have h0 := spells_head_nonspace hpm (by decide)
    cases pm with
    | nil => simp at hpm
    | cons p₀ t =>
      intro c hc
      have : c = p₀ := by simpa using hc
      subst this
      exact h0 _ (by simp)
  have hlm_head : ∀ c ∈ (lm ++ (ws3 ++ b)).take 1, isSpaceC c = false := by
    have h0 := spells_head_nonspace hlm (by decide)
    cases lm with
    | nil => simp at hlm
    | cons l₀ t =>
      intro c hc
      have : c = l₀ := by simpa using hc
      subst this
      exact h0 _ (by simp)
  have e1 : (ws1 ++ (pm ++ (ws2 ++ (lm ++ (ws3 ++ b))))).dropWhile isSpaceC =
      pm ++ (ws2 ++ (lm ++ (ws3 ++ b))) := by
    rw [dropWhile_spaces_append h1, dropWhile_head_false hpm_head]
  have e2 : matchCI ['p', 't', 'e'] (pm ++ (ws2 ++ (lm ++ (ws3 ++ b)))) =
      some (ws2 ++ (lm ++ (ws3 ++ b))) := matchCI_spells pm _ _ hpm
  have e3 : (ws2 ++ (lm ++ (ws3 ++ b))).dropWhile isSpaceC = lm ++ (ws3 ++ b) := by
    rw [dropWhile_spaces_append h2, dropWhile_head_false hlm_head]
  have e4 : matchCI ['l', 't', 'd'] (lm ++ (ws3 ++ b)) = some (ws3 ++ b) :=
    matchCI_spells lm _ _ hlm
  have e5 : (ws3 ++ b).dropWhile isSpaceC = b := by
    rw [dropWhile_spaces_append h3, dropWhile_head_false hb]
  unfold matchPteLtd
  rw [e1]
  simp only [e2, e3, e4, e5]

theorem matchPteLtd_none_head {c : Char} {xs : List Char}
    (hns : isSpaceC c = false) (hnp : toLowerC c ≠ 'p') :
    matchPteLtd (c :: xs) = none := by
  unfold matchPteLtd
  rw [List.dropWhile_cons_of_neg (by simp [hns])]
  rw [show matchCI ['p', 't', 'e'] (c :: xs) =
        if toLowerC c = 'p' then matchCI ['t', 'e'] xs else none from rfl,
      if_neg hnp]

theorem pteLtdSub_front_clean : ∀ (a X : List Char),
    (∀ c ∈ a, isSpaceC c = false ∧ toLowerC c ≠ 'p') →
    pteLtdSub (a ++ X) = a ++ pteLtdSub X
  | [], X, _ => by simp
  | c :: a', X, h => by
    have hc := h c (List.mem_cons_self c a')
    have hm : matchPteLtd (c :: (a' ++ X)) = none := matchPteLtd_none_head hc.1 hc.2
    rw [List.cons_append, pteLtdSub_cons]
    simp only [hm]
    rw [pteLtdSub_front_clean a' X (fun d hd => h d (List.mem_cons_of_mem _ hd))]
    rfl

/-- C10: company-name cleaning removes every occurrence of the
case-insensitive pattern `PTE` + optional whitespace + `LTD` together with
surrounding whitespace wherever it appears — also mid-string and as the
tail of a longer word (`"Compte Ltd"` becomes `"Com"`) — joining the
flanking text with no separating space, before title-casing. -/
theorem c10_company_clean :
    (∀ a ws1 pm ws2 lm ws3 b : List Char,
      (∀ c ∈ a, isSpaceC c = false ∧ toLowerC c ≠ 'p') →
      (∀ c ∈ ws1, isSpaceC c = true) → (∀ c ∈ ws2, isSpaceC c = true) →
      (∀ c ∈ ws3, isSpaceC c = true) →
      spellsCI pm ("pte".toList) → spellsCI lm ("ltd".toList) →
      (∀ c ∈ b.take 1, isSpaceC c = false) →
      pteLtdSub (a ++ ws1 ++ pm ++ ws2 ++ lm ++ ws3 ++ b) = a ++ pteLtdSub b) ∧
    clean_company_name ("Compte Ltd".toList) = "Com".toList ∧
    clean_company_name ("ABC Pte Ltd".toList) = "Abc".toList ∧
    clean_company_name ("A PTE LTD B".toList) = "Ab".toList ∧
    clean_company_name ("q pte ltd w pteltd e".toList) = "Qwe".toList := by
  refine ⟨?_, by decide, by decide, by decide, by decide⟩
  intro a ws1 pm ws2 lm ws3 b ha h1 h2 h3 hpm hlm hb
  have hpm' : pm.map toLowerC = ['p', 't', 'e'] := hpm
  have hlm' : lm.map toLowerC = ['l', 't', 'd'] := hlm
  have hocc := matchPteLtd_occ h1 h2 h3 hpm' hlm' hb
  simp only [List.append_assoc]
  rw [pteLtdSub_front_clean a _ ha]
  congr 1
  cases hg : ws1 ++ (pm ++ (ws2 ++ (lm ++ (ws3 ++ b)))) with
  | nil =>
    exfalso
    rcases List.append_eq_nil.mp hg with ⟨_, hg'⟩
    rcases List.append_eq_nil.mp hg' with ⟨hpm0, _⟩
    rw [hpm0] at hpm'
    simp at hpm'
  | cons z zs =>
    rw [pteLtdSub_cons]
    have hocc' : matchPteLtd (z :: zs) = some b := by rw [← hg]; exact hocc
    simp only [hocc']

/-- C10 witness: the general removal statement at
`"AB" ++ " " ++ "Pte" ++ " " ++ "Ltd" ++ " " ++ "Z"`. -/
theorem c10_company_clean_witness :
    pteLtdSub ("AB".toList ++ " ".toList ++ "Pte".toList ++ " ".toList ++ "Ltd".toList ++
        " ".toList ++ "Z".toList) = "AB".toList ++ pteLtdSub ("Z".toList) ∧
    pteLtdSub ("Z".toList) = "Z".toList :=
  ⟨c10_company_clean.1 ("AB".toList) (" ".toList) ("Pte".toList) (" ".toList) ("Ltd".toList)
      (" ".toList) ("Z".toList) (by decide) (by decide) (by decide) (by decide)
      (show ("Pte".toList).map toLowerC = "pte".toList by decide)
      (show ("Ltd".toList).map toLowerC = "ltd".toList by decide) (by decide),
   by decide⟩
